import Mathlib

/-!
Shallow embedding of the BUZZ presale bot engine (src/server.js, final
variant: store helpers at lines 553-635, pricing at 638-641, distribution
executor and poller at lines 643-732).

Base-currency (SOL) amounts are embedded as exact rationals and token
amounts as integers; every integer division below is applied to
nonnegative operands, where Lean's integer division agrees with the
source's Math.floor of the real quotient.  Chain-client calls are
modelled by an oracle saying whether each call succeeds, and a thrown JS
exception is modelled with Except, the error value carrying the state
and the event trace at the throw point (effects already performed
persist).  The store is the source's pool-or-memory pair: every store
helper branches on whether a Postgres pool is configured, exactly as the
source functions do.
-/

namespace PresaleBot

/-- A pricing tier: a SOL price and a fixed whole-token payout
(an entry of the TIERS array, lines 504-509). -/
structure Tier where
  sol : ℚ
  buzz : ℤ
  deriving DecidableEq, Repr

/-- The ENV-derived engine configuration (lines 491-547) restricted to
the constants the engine reads. -/
structure Config where
  tiers : List Tier
  buzzPerSol : ℚ
  minSol : ℚ
  maxSol : ℚ
  presaleCap : ℤ
  burnMode : String
  burnRateBps : ℤ
  treasury : String

/-- One parsed instruction of a fetched transaction, with the fields
processSignature reads (program, parsed.type, parsed.info.destination,
parsed.info.lamports, parsed.info.source). -/
structure Instr where
  program : String
  parsedType : String
  destination : String
  lamports : ℤ
  source : String
  deriving DecidableEq, Repr

/-- A parsed transaction: whether meta.err is set, plus its
instruction list. -/
structure Tx where
  err : Bool
  instructions : List Instr
  deriving DecidableEq, Repr

/-- A purchases row: (tx_sig, sender, sol, buzz); also the shape of the
in-memory memRows entries. -/
structure Purchase where
  sig : String
  sender : String
  sol : ℚ
  buzz : ℤ
  deriving DecidableEq, Repr

/-- The store state.  usePool says whether DATABASE_URL configured a
pool; memProcessed / memRows are the in-memory fallback (a signature set
and the newest-first row log kept to 50 entries); pgPurchases / pgBurns
are the Postgres purchases and burns tables. -/
structure St where
  usePool : Bool
  memProcessed : List String
  memRows : List Purchase
  pgPurchases : List Purchase
  pgBurns : List ℤ
  deriving DecidableEq, Repr

/-- Sum of the sol column of a row list (reduce / SQL SUM(sol)). -/
def sumSol (l : List Purchase) : ℚ :=
  l.foldl (fun s r => s + r.sol) 0

/-- Sum of the buzz column of a row list (reduce / SQL SUM(buzz)). -/
def sumBuzz (l : List Purchase) : ℤ :=
  l.foldl (fun s r => s + r.buzz) 0

/-- Sum of a burns list (SQL SUM(amount_buzz)). -/
def sumBurn (l : List ℤ) : ℤ :=
  l.foldl (fun s a => s + a) 0

/-- hasProcessed (lines 581-585): membership in memProcessed without a
pool, otherwise SELECT 1 FROM purchases WHERE tx_sig matches. -/
def hasProcessed (st : St) (sig : String) : Bool :=
  if !st.usePool then st.memProcessed.contains sig
  else st.pgPurchases.any (fun r => r.sig == sig)

/-- recordPurchase (lines 587-598): without a pool, add the signature to
memProcessed and unshift the row into memRows truncated to 50 entries;
with a pool, INSERT ... ON CONFLICT DO NOTHING keyed by tx_sig. -/
def recordPurchase (st : St) (row : Purchase) : St :=
  if !st.usePool then
    { st with
      memProcessed :=
        if st.memProcessed.contains row.sig then st.memProcessed
        else row.sig :: st.memProcessed,
      memRows := (row :: st.memRows).take 50 }
  else if st.pgPurchases.any (fun r => r.sig == row.sig) then st
  else { st with pgPurchases := st.pgPurchases ++ [row] }

/-- getTotals (lines 600-608): sums over memRows without a pool,
otherwise SQL SUM over the purchases table. -/
def getTotals (st : St) : ℚ × ℤ :=
  if !st.usePool then (sumSol st.memRows, sumBuzz st.memRows)
  else (sumSol st.pgPurchases, sumBuzz st.pgPurchases)

/-- recordBurn (lines 625-629): returns unchanged on a nonpositive
amount or without a pool, otherwise INSERT INTO burns. -/
def recordBurn (st : St) (amount : ℤ) : St :=
  if amount ≤ 0 then st
  else if !st.usePool then st
  else { st with pgBurns := st.pgBurns ++ [amount] }

/-- getTotalBurned (lines 631-635): 0 without a pool, otherwise SQL SUM
over the burns table. -/
def getTotalBurned (st : St) : ℤ :=
  if !st.usePool then 0 else sumBurn st.pgBurns

/-- The SOL value of a lamports field (Number(lamports) / 1e9). -/
def amountSolOf (i : Instr) : ℚ :=
  (i.lamports : ℚ) / 1000000000

/-- calcBuzzWhole (lines 638-641): first tier within 1e-9 of the amount
wins, otherwise floor(amountSol * BUZZ_PER_SOL). -/
def calcBuzzWhole (cfg : Config) (amountSol : ℚ) : ℤ :=
  match cfg.tiers.find? (fun t => decide (|t.sol - amountSol| < 1 / 1000000000)) with
  | some t => t.buzz
  | none => ⌊amountSol * cfg.buzzPerSol⌋

/-- The presale-cap block of processSignature (lines 689-695): none
models the early return when the cap is reached, some gives the possibly
clamped whole amount. -/
def capAdjust (cfg : Config) (st : St) (buzzWhole : ℤ) : Option ℤ :=
  if cfg.presaleCap > 0 then
    let remaining := max 0 (cfg.presaleCap - (getTotals st).2)
    if remaining ≤ 0 then none
    else if buzzWhole > remaining then some remaining else some buzzWhole
  else some buzzWhole

/-- The take-mode burn block of processSignature (lines 697-705): none
models the early return when nothing is left for the buyer; otherwise
(buyerBuzz, burnWhole). -/
def burnSplit (cfg : Config) (buzzWhole : ℤ) : Option (ℤ × ℤ) :=
  if cfg.burnMode = "take" ∧ cfg.burnRateBps > 0 then
    let burnWhole := buzzWhole * cfg.burnRateBps / 10000
    let buyerBuzz := buzzWhole - burnWhole
    if buyerBuzz ≤ 0 then none else some (buyerBuzz, burnWhole)
  else some (buzzWhole, 0)

/-- The result of the RPC getParsedTransaction call: a thrown error,
a missing or failed transaction (tx null or meta.err set), or a parsed
transaction. -/
inductive FetchResult where
  | throwErr : FetchResult
  | notFound : FetchResult
  | found : Tx → FetchResult
  deriving DecidableEq, Repr

/-- The chain-client oracle: what fetching a signature yields, and
whether a given transfer (airdropBuzz, lines 643-652) or burn call
(the on-chain part of burnBuzz, lines 654-661) succeeds. -/
structure Chain where
  fetch : String → FetchResult
  transferOk : String → ℤ → Bool
  burnOk : ℤ → Bool

/-- Observable events, in order of occurrence: a transaction fetch, a
token transfer call, a token burn call, and the two ledger commits. -/
inductive Event where
  | fetchTx : String → Event
  | transferCall : String → ℤ → Event
  | burnCall : ℤ → Event
  | commitBurn : ℤ → Event
  | commitPurchase : Purchase → Event
  deriving DecidableEq, Repr

/-- The extra-mode burn recomputation performed after the transfer
(lines 711-713): in extra mode the burn is a fraction of the buyer
amount, otherwise the take-mode figure (or 0) stands. -/
def burnFinal (cfg : Config) (buyerBuzz burnWhole : ℤ) : ℤ :=
  if cfg.burnMode = "extra" ∧ cfg.burnRateBps > 0 then
    buyerBuzz * cfg.burnRateBps / 10000
  else burnWhole

/-- The three ways one iteration of the instruction loop can end:
halt models the early returns that end the whole processSignature call,
thrown models a propagating exception, next falls through to the next
instruction. -/
inductive StepRes where
  | halt : St → List Event → StepRes
  | thrown : St → List Event → StepRes
  | next : St → List Event → StepRes
  deriving Repr

/-- The policy-and-execution part of one loop iteration, reached once
the instruction has passed every classification and guard check
(lines 689-719): the cap block, the take-mode split, the transfer, the
extra-mode burn figure, the burn call with its ledger record, and the
purchase record. -/
def execPolicy (cfg : Config) (ch : Chain) (sig : String) (i : Instr)
    (st : St) (tr : List Event) : StepRes :=
  match capAdjust cfg st (calcBuzzWhole cfg (amountSolOf i)) with
  | none => .halt st tr
  | some buzzWhole =>
    match burnSplit cfg buzzWhole with
    | none => .halt st tr
    | some (buyerBuzz, burnWhole) =>
      let tr1 := tr ++ [Event.transferCall i.source buyerBuzz]
      if ch.transferOk i.source buyerBuzz then
        let burnWhole2 := burnFinal cfg buyerBuzz burnWhole
        if burnWhole2 > 0 then
          let tr2 := tr1 ++ [Event.burnCall burnWhole2]
          if ch.burnOk burnWhole2 then
            let st1 := recordBurn st burnWhole2
            let tr3 := tr2 ++ [Event.commitBurn burnWhole2]
            let row : Purchase := ⟨sig, i.source, amountSolOf i, buyerBuzz⟩
            .next (recordPurchase st1 row) (tr3 ++ [Event.commitPurchase row])
          else .thrown st tr2
        else
          let row : Purchase := ⟨sig, i.source, amountSolOf i, buyerBuzz⟩
          .next (recordPurchase st row) (tr1 ++ [Event.commitPurchase row])
      else .thrown st tr1

/-- One iteration of the instruction loop of processSignature
(lines 672-720): the classification guards (continue on miss), then the
policy-and-execution part. -/
def instrStep (cfg : Config) (ch : Chain) (sig : String) (i : Instr)
    (st : St) (tr : List Event) : StepRes :=
  if i.program ≠ "system" ∨ i.parsedType ≠ "transfer" then .next st tr
  else if i.destination ≠ cfg.treasury then .next st tr
  else if i.lamports ≤ 0 then .next st tr
  else if amountSolOf i < cfg.minSol ∨ amountSolOf i > cfg.maxSol then .next st tr
  else if calcBuzzWhole cfg (amountSolOf i) ≤ 0 then .next st tr
  else execPolicy cfg ch sig i st tr

/-- The instruction loop of processSignature (lines 671-721), iterating
instrStep: halt ends the call normally, thrown propagates the
exception, next continues with the next instruction. -/
def procInstrs (cfg : Config) (ch : Chain) (sig : String) :
    List Instr → St → List Event → Except (St × List Event) (St × List Event)
  | [], st, tr => .ok (st, tr)
  | i :: rest, st, tr =>
    match instrStep cfg ch sig i st tr with
    | .halt st1 tr1 => .ok (st1, tr1)
    | .thrown st1 tr1 => .error (st1, tr1)
    | .next st1 tr1 => procInstrs cfg ch sig rest st1 tr1

/-- processSignature (lines 664-721): skip if the signature was already
processed, fetch the transaction (a thrown fetch aborts), skip a missing
or failed transaction, otherwise run the instruction loop. -/
def processSignature (cfg : Config) (ch : Chain) (st : St) (sig : String) :
    Except (St × List Event) (St × List Event) :=
  if hasProcessed st sig then .ok (st, [])
  else
    match ch.fetch sig with
    | .throwErr => .error (st, [Event.fetchTx sig])
    | .notFound => .ok (st, [Event.fetchTx sig])
    | .found tx =>
      if tx.err then .ok (st, [Event.fetchTx sig])
      else procInstrs cfg ch sig tx.instructions st [Event.fetchTx sig]

/-- The candidate loop of poll (lines 726-728): sequential awaited
processing, an exception propagating out of any candidate. -/
def processAll (cfg : Config) (ch : Chain) :
    List String → St → List Event → Except (St × List Event) (St × List Event)
  | [], st, tr => .ok (st, tr)
  | s :: rest, st, tr =>
    match processSignature cfg ch st s with
    | .ok (st1, tr1) => processAll cfg ch rest st1 (tr ++ tr1)
    | .error (st1, tr1) => .error (st1, tr ++ tr1)

/-- poll (lines 723-732): the signature list arrives newest-first and is
reversed before the loop; the surrounding try/catch turns any thrown
error into a logged message, returning normally.  The Bool records
whether an error was caught. -/
def poll (cfg : Config) (ch : Chain) (st : St) (sigs : List String) :
    St × List Event × Bool :=
  match processAll cfg ch sigs.reverse st [] with
  | .ok (st1, tr) => (st1, tr, false)
  | .error (st1, tr) => (st1, tr, true)

/-- The state component of a processing outcome, whether it returned or
threw. -/
def outSt : Except (St × List Event) (St × List Event) → St
  | .ok (st, _) => st
  | .error (st, _) => st

/-- The trace component of a processing outcome. -/
def outTr : Except (St × List Event) (St × List Event) → List Event
  | .ok (_, tr) => tr
  | .error (_, tr) => tr

/-- The state carried by a loop-iteration result. -/
def stepSt : StepRes → St
  | .halt s _ => s
  | .thrown s _ => s
  | .next s _ => s

/-- The trace carried by a loop-iteration result. -/
def stepTr : StepRes → List Event
  | .halt _ t => t
  | .thrown _ t => t
  | .next _ t => t

/-- An instruction that passes every classification and guard check of
the loop: a system transfer into the treasury, positive lamports, the
SOL amount within the MIN_SOL / MAX_SOL guards, and a positive computed
whole-token amount.  This is exactly the condition under which the loop
reaches the cap block for this instruction. -/
def qualInstr (cfg : Config) (i : Instr) : Prop :=
  i.program = "system" ∧ i.parsedType = "transfer" ∧
  i.destination = cfg.treasury ∧ 0 < i.lamports ∧
  ¬(amountSolOf i < cfg.minSol ∨ amountSolOf i > cfg.maxSol) ∧
  0 < calcBuzzWhole cfg (amountSolOf i)

/-! Concrete fixtures used to evaluate the engine on explicit inputs:
small configurations, instructions, chain oracles and store states. -/

/-- The empty store state in Postgres mode. -/
def stPool : St := ⟨true, [], [], [], []⟩

/-- The empty store state in in-memory mode. -/
def stMem : St := ⟨false, [], [], [], []⟩

/-- A system-transfer instruction into the fixture treasury. -/
def mkI (lam : ℤ) (src : String) : Instr :=
  ⟨"system", "transfer", "TR", lam, src⟩

/-- A 1 SOL deposit from B1. -/
def i1SOL : Instr := mkI 1000000000 "B1"

/-- A 0.1 SOL deposit from B1. -/
def iTenth : Instr := mkI 100000000 "B1"

/-- A 0.5 SOL deposit from B2. -/
def iHalf : Instr := mkI 500000000 "B2"

/-- A 0.01 SOL deposit (below the 0.05 minimum guard) from B1. -/
def iDust : Instr := mkI 10000000 "B1"

/-- The default tier list of the source (0.10, 0.25 and 0.50 SOL). -/
def cfgTiers : Config :=
  { tiers := [⟨1/10, 5000000⟩, ⟨1/4, 15000000⟩, ⟨1/2, 35000000⟩],
    buzzPerSol := 70000000, minSol := 1/20, maxSol := 500,
    presaleCap := 0, burnMode := "off", burnRateBps := 0, treasury := "TR" }

/-- Tier-free take-mode configuration, 5 percent burn, no cap. -/
def cfgTake : Config :=
  { tiers := [], buzzPerSol := 2000, minSol := 1/20, maxSol := 500,
    presaleCap := 0, burnMode := "take", burnRateBps := 500, treasury := "TR" }

/-- Take-mode configuration with a cap of 100 tokens. -/
def cfgTakeCap : Config :=
  { tiers := [], buzzPerSol := 2000, minSol := 1/20, maxSol := 500,
    presaleCap := 100, burnMode := "take", burnRateBps := 500, treasury := "TR" }

/-- Take-mode configuration at a 10M-per-SOL linear rate, no cap. -/
def cfgTakeBig : Config :=
  { tiers := [], buzzPerSol := 10000000, minSol := 1/20, maxSol := 500,
    presaleCap := 0, burnMode := "take", burnRateBps := 500, treasury := "TR" }

/-- Extra-mode configuration at a 10M-per-SOL linear rate, no cap. -/
def cfgExtraBig : Config :=
  { tiers := [], buzzPerSol := 10000000, minSol := 1/20, maxSol := 500,
    presaleCap := 0, burnMode := "extra", burnRateBps := 500, treasury := "TR" }

/-- Burn-off configuration at a 10M-per-SOL linear rate with a
10M-token presale cap. -/
def cfgCap : Config :=
  { tiers := [], buzzPerSol := 10000000, minSol := 1/20, maxSol := 500,
    presaleCap := 10000000, burnMode := "off", burnRateBps := 0, treasury := "TR" }

/-- A chain oracle that always returns the given transaction and whose
transfer and burn calls always succeed. -/
def chAll (tx : Tx) : Chain :=
  { fetch := fun _ => .found tx,
    transferOk := fun _ _ => true, burnOk := fun _ => true }

/-- A chain oracle whose burn calls always fail. -/
def chBurnFail (tx : Tx) : Chain :=
  { fetch := fun _ => .found tx,
    transferOk := fun _ _ => true, burnOk := fun _ => false }

/-- A chain oracle serving two one-instruction deposits: signature s1 is
the 0.1 SOL deposit from B1, any other signature the 0.5 SOL deposit
from B2; transfers to B1 fail, transfers to B2 succeed. -/
def chTwoFail1 : Chain :=
  { fetch := fun s =>
      if s = "s1" then .found ⟨false, [iTenth]⟩ else .found ⟨false, [iHalf]⟩,
    transferOk := fun src _ => src == "B2", burnOk := fun _ => true }

/-- A chain oracle serving the same two deposits with all calls
succeeding. -/
def chTwoOk : Chain :=
  { fetch := fun s =>
      if s = "sOld" then .found ⟨false, [iTenth]⟩ else .found ⟨false, [iHalf]⟩,
    transferOk := fun _ _ => true, burnOk := fun _ => true }

/-- A pool-mode store already holding 8M tokens of purchases. -/
def stCap8M : St := ⟨true, [], [], [⟨"s0", "B0", 1, 8000000⟩], []⟩

/-- A pool-mode store already holding a processed row for signature p1. -/
def stDone : St := ⟨true, [], [], [⟨"p1", "B1", 1, 1900⟩], []⟩

/-- Tier-free linear configuration: 70M per SOL, no cap, no burn. -/
def cfgLinear : Config :=
  { tiers := [], buzzPerSol := 70000000, minSol := 1/20, maxSol := 500,
    presaleCap := 0, burnMode := "off", burnRateBps := 0, treasury := "TR" }

/-- The 1 SOL transaction fixture. -/
def tx1SOL : Tx := ⟨false, [i1SOL]⟩

/-- The 0.1 SOL transaction fixture. -/
def txTenth : Tx := ⟨false, [iTenth]⟩

/-- The 0.5 SOL transaction fixture. -/
def txHalf : Tx := ⟨false, [iHalf]⟩

/-- A pool-mode store whose purchases already sum to the 10M cap. -/
def stFull : St := ⟨true, [], [], [⟨"s0", "B0", 1, 10000000⟩], []⟩

/-- Signature uniqueness of a purchase-row list: no two rows share the
same tx_sig (the purchases primary key). -/
def sigsUnique (l : List Purchase) : Prop :=
  l.Pairwise (fun a b => a.sig ≠ b.sig)

/-- A transaction with two qualifying deposits (0.1 SOL from B1 and
0.5 SOL from B2) under one signature. -/
def txTwo : Tx := ⟨false, [iTenth, iHalf]⟩

/-- A chain oracle where only transfers to B1 succeed. -/
def chFirstOnly : Chain :=
  { fetch := fun _ => .found txTwo,
    transferOk := fun src _ => src == "B1", burnOk := fun _ => true }

/-- A transferCall recognizer over events. -/
def isTransferCall : Event → Bool
  | Event.transferCall _ _ => true
  | _ => false

/-! Basic facts about the store operations. -/

lemma recordBurn_usePool (st : St) (a : ℤ) : (recordBurn st a).usePool = st.usePool := by
  simp only [recordBurn]
  split <;> [rfl; skip]
  split <;> rfl

lemma recordBurn_pgPurchases (st : St) (a : ℤ) :
    (recordBurn st a).pgPurchases = st.pgPurchases := by
  simp only [recordBurn]
  split <;> [rfl; skip]
  split <;> rfl

lemma recordBurn_memRows (st : St) (a : ℤ) : (recordBurn st a).memRows = st.memRows := by
  simp only [recordBurn]
  split <;> [rfl; skip]
  split <;> rfl

lemma recordBurn_memProcessed (st : St) (a : ℤ) :
    (recordBurn st a).memProcessed = st.memProcessed := by
  simp only [recordBurn]
  split <;> [rfl; skip]
  split <;> rfl

lemma recordPurchase_usePool (st : St) (row : Purchase) :
    (recordPurchase st row).usePool = st.usePool := by
  simp only [recordPurchase]
  split <;> [rfl; skip]
  split <;> rfl

lemma sumBuzz_append (l : List Purchase) (r : Purchase) :
    sumBuzz (l ++ [r]) = sumBuzz l + r.buzz := by
  simp [sumBuzz, List.foldl_append]

lemma sumSol_append (l : List Purchase) (r : Purchase) :
    sumSol (l ++ [r]) = sumSol l + r.sol := by
  simp [sumSol, List.foldl_append]

lemma sumBurn_append (l : List ℤ) (a : ℤ) :
    sumBurn (l ++ [a]) = sumBurn l + a := by
  simp [sumBurn, List.foldl_append]

lemma getTotals_pool (st : St) (hp : st.usePool = true) :
    getTotals st = (sumSol st.pgPurchases, sumBuzz st.pgPurchases) := by
  simp [getTotals, hp]

lemma getTotals_mem (st : St) (hp : st.usePool = false) :
    getTotals st = (sumSol st.memRows, sumBuzz st.memRows) := by
  simp [getTotals, hp]

lemma hasProcessed_pool (st : St) (sig : String) (hp : st.usePool = true) :
    hasProcessed st sig = st.pgPurchases.any (fun r => r.sig == sig) := by
  simp [hasProcessed, hp]

lemma recordPurchase_pool_dup (st : St) (row : Purchase) (hp : st.usePool = true)
    (h : st.pgPurchases.any (fun r => r.sig == row.sig) = true) :
    recordPurchase st row = st := by
  simp [recordPurchase, hp, h]

lemma recordPurchase_pool_new (st : St) (row : Purchase) (hp : st.usePool = true)
    (h : st.pgPurchases.any (fun r => r.sig == row.sig) = false) :
    recordPurchase st row = { st with pgPurchases := st.pgPurchases ++ [row] } := by
  simp [recordPurchase, hp, h]

/-! Bounds delivered by the cap block and the take-mode split. -/

lemma capAdjust_some_bound (cfg : Config) (st : St) (b0 bw : ℤ)
    (hcap : 0 < cfg.presaleCap) (h : capAdjust cfg st b0 = some bw) :
    bw ≤ cfg.presaleCap - (getTotals st).2 := by
  simp only [capAdjust] at h
  split_ifs at h with h1 h2 h3 <;>
    (have h' := Option.some_inj.mp h
     rcases max_cases 0 (cfg.presaleCap - (getTotals st).2) with ⟨h4, h5⟩ | ⟨h4, h5⟩ <;>
       omega)

lemma capAdjust_some_pos (cfg : Config) (st : St) (b0 bw : ℤ)
    (h0 : 0 < b0) (h : capAdjust cfg st b0 = some bw) : 0 < bw := by
  simp only [capAdjust] at h
  split_ifs at h with h1 h2 h3 <;>
    (have h' := Option.some_inj.mp h
     rcases max_cases 0 (cfg.presaleCap - (getTotals st).2) with ⟨h4, h5⟩ | ⟨h4, h5⟩ <;>
       omega)

lemma capAdjust_off (cfg : Config) (st : St) (b0 : ℤ) (hc : ¬ cfg.presaleCap > 0) :
    capAdjust cfg st b0 = some b0 := by
  simp [capAdjust, hc]

lemma burnSplit_le (cfg : Config) (bw buyer burnW : ℤ) (hbw : 0 < bw)
    (h : burnSplit cfg bw = some (buyer, burnW)) :
    0 < buyer ∧ buyer ≤ bw ∧ 0 ≤ burnW := by
  simp only [burnSplit] at h
  split_ifs at h with h1 h2
  · have hb0 : 0 ≤ bw * cfg.burnRateBps / 10000 :=
      Int.ediv_nonneg (mul_nonneg hbw.le h1.2.le) (by norm_num)
    have h' := Option.some_inj.mp h
    have h'1 := congrArg Prod.fst h'
    have h'2 := congrArg Prod.snd h'
    simp only at h'1 h'2
    omega
  · have h' := Option.some_inj.mp h
    have h'1 := congrArg Prod.fst h'
    have h'2 := congrArg Prod.snd h'
    simp only at h'1 h'2
    omega

lemma burnSplit_notake (cfg : Config) (bw : ℤ)
    (h : ¬ (cfg.burnMode = "take" ∧ cfg.burnRateBps > 0)) :
    burnSplit cfg bw = some (bw, 0) := by
  simp [burnSplit, h]

/-! Characterizations of the loop iteration and its callers. -/

lemma instrStep_qual (cfg : Config) (ch : Chain) (sig : String) (i : Instr)
    (st : St) (tr : List Event) (h : qualInstr cfg i) :
    instrStep cfg ch sig i st tr = execPolicy cfg ch sig i st tr := by
  obtain ⟨h1, h2, h3, h4, h5, h6⟩ := h
  simp only [instrStep, h1, h2, h3]
  rw [if_neg (by simp), if_neg (by simp), if_neg (by omega), if_neg h5, if_neg (by omega)]

lemma instrStep_guard_skip (cfg : Config) (ch : Chain) (sig : String) (i : Instr)
    (st : St) (tr : List Event)
    (h1 : i.program = "system") (h2 : i.parsedType = "transfer")
    (h3 : i.destination = cfg.treasury) (h4 : 0 < i.lamports)
    (h5 : amountSolOf i < cfg.minSol ∨ amountSolOf i > cfg.maxSol) :
    instrStep cfg ch sig i st tr = .next st tr := by
  simp only [instrStep, h1, h2, h3]
  rw [if_neg (by simp), if_neg (by simp), if_neg (by omega), if_pos h5]

lemma execPolicy_cap_none (cfg : Config) (ch : Chain) (sig : String) (i : Instr)
    (st : St) (tr : List Event)
    (h : capAdjust cfg st (calcBuzzWhole cfg (amountSolOf i)) = none) :
    execPolicy cfg ch sig i st tr = .halt st tr := by
  simp only [execPolicy, h]

lemma execPolicy_split_none (cfg : Config) (ch : Chain) (sig : String) (i : Instr)
    (st : St) (tr : List Event) (bw : ℤ)
    (hcap : capAdjust cfg st (calcBuzzWhole cfg (amountSolOf i)) = some bw)
    (hsplit : burnSplit cfg bw = none) :
    execPolicy cfg ch sig i st tr = .halt st tr := by
  simp only [execPolicy, hcap, hsplit]

lemma execPolicy_transfer_fail (cfg : Config) (ch : Chain) (sig : String) (i : Instr)
    (st : St) (tr : List Event) (bw buyer burnW : ℤ)
    (hcap : capAdjust cfg st (calcBuzzWhole cfg (amountSolOf i)) = some bw)
    (hsplit : burnSplit cfg bw = some (buyer, burnW))
    (ht : ch.transferOk i.source buyer = false) :
    execPolicy cfg ch sig i st tr = .thrown st (tr ++ [Event.transferCall i.source buyer]) := by
  simp only [execPolicy, hcap, hsplit, ht]
  rfl

lemma execPolicy_success_noburn (cfg : Config) (ch : Chain) (sig : String) (i : Instr)
    (st : St) (tr : List Event) (bw buyer burnW : ℤ)
    (hcap : capAdjust cfg st (calcBuzzWhole cfg (amountSolOf i)) = some bw)
    (hsplit : burnSplit cfg bw = some (buyer, burnW))
    (ht : ch.transferOk i.source buyer = true)
    (hbf : ¬ burnFinal cfg buyer burnW > 0) :
    execPolicy cfg ch sig i st tr =
      .next (recordPurchase st ⟨sig, i.source, amountSolOf i, buyer⟩)
        (tr ++ [Event.transferCall i.source buyer,
                Event.commitPurchase ⟨sig, i.source, amountSolOf i, buyer⟩]) := by
  simp only [execPolicy, hcap, hsplit, ht, if_true, if_neg hbf]
  simp [List.append_assoc]

lemma execPolicy_success_burn (cfg : Config) (ch : Chain) (sig : String) (i : Instr)
    (st : St) (tr : List Event) (bw buyer burnW : ℤ)
    (hcap : capAdjust cfg st (calcBuzzWhole cfg (amountSolOf i)) = some bw)
    (hsplit : burnSplit cfg bw = some (buyer, burnW))
    (ht : ch.transferOk i.source buyer = true)
    (hbf : burnFinal cfg buyer burnW > 0)
    (hok : ch.burnOk (burnFinal cfg buyer burnW) = true) :
    execPolicy cfg ch sig i st tr =
      .next (recordPurchase (recordBurn st (burnFinal cfg buyer burnW))
               ⟨sig, i.source, amountSolOf i, buyer⟩)
        (tr ++ [Event.transferCall i.source buyer,
                Event.burnCall (burnFinal cfg buyer burnW),
                Event.commitBurn (burnFinal cfg buyer burnW),
                Event.commitPurchase ⟨sig, i.source, amountSolOf i, buyer⟩]) := by
  simp only [execPolicy, hcap, hsplit, ht, if_true, if_pos hbf, hok]
  simp [List.append_assoc]

lemma execPolicy_burn_fail (cfg : Config) (ch : Chain) (sig : String) (i : Instr)
    (st : St) (tr : List Event) (bw buyer burnW : ℤ)
    (hcap : capAdjust cfg st (calcBuzzWhole cfg (amountSolOf i)) = some bw)
    (hsplit : burnSplit cfg bw = some (buyer, burnW))
    (ht : ch.transferOk i.source buyer = true)
    (hbf : burnFinal cfg buyer burnW > 0)
    (hok : ch.burnOk (burnFinal cfg buyer burnW) = false) :
    execPolicy cfg ch sig i st tr =
      .thrown st (tr ++ [Event.transferCall i.source buyer,
                         Event.burnCall (burnFinal cfg buyer burnW)]) := by
  simp only [execPolicy, hcap, hsplit, ht, if_true, if_pos hbf, hok]
  simp [List.append_assoc]

lemma procInstrs_singleton (cfg : Config) (ch : Chain) (sig : String) (i : Instr)
    (st : St) (tr : List Event) :
    procInstrs cfg ch sig [i] st tr =
      (match instrStep cfg ch sig i st tr with
       | .halt s t => .ok (s, t)
       | .thrown s t => .error (s, t)
       | .next s t => .ok (s, t)) := by
  rcases hstep : instrStep cfg ch sig i st tr with ⟨s, t⟩ | ⟨s, t⟩ | ⟨s, t⟩ <;>
    simp [procInstrs, hstep]

lemma processSignature_skip (cfg : Config) (ch : Chain) (st : St) (sig : String)
    (h : hasProcessed st sig = true) :
    processSignature cfg ch st sig = .ok (st, []) := by
  simp [processSignature, h]

lemma processSignature_throw (cfg : Config) (ch : Chain) (st : St) (sig : String)
    (hnp : hasProcessed st sig = false) (hf : ch.fetch sig = .throwErr) :
    processSignature cfg ch st sig = .error (st, [Event.fetchTx sig]) := by
  simp [processSignature, hnp, hf]

lemma processSignature_notFound (cfg : Config) (ch : Chain) (st : St) (sig : String)
    (hnp : hasProcessed st sig = false) (hf : ch.fetch sig = .notFound) :
    processSignature cfg ch st sig = .ok (st, [Event.fetchTx sig]) := by
  simp [processSignature, hnp, hf]

lemma processSignature_found (cfg : Config) (ch : Chain) (st : St) (sig : String)
    (tx : Tx) (hnp : hasProcessed st sig = false) (hf : ch.fetch sig = .found tx)
    (he : tx.err = false) :
    processSignature cfg ch st sig =
      procInstrs cfg ch sig tx.instructions st [Event.fetchTx sig] := by
  simp [processSignature, hnp, hf, he]

lemma processAll_append (cfg : Config) (ch : Chain) (a b : List String)
    (st : St) (tr : List Event) :
    processAll cfg ch (a ++ b) st tr =
      (match processAll cfg ch a st tr with
       | .ok (st1, tr1) => processAll cfg ch b st1 tr1
       | .error e => .error e) := by
  induction a generalizing st tr with
  | nil => simp [processAll]
  | cons s rest ih =>
    simp only [List.cons_append, processAll]
    rcases hs : processSignature cfg ch st s with ⟨st1, tr1⟩ | ⟨st1, tr1⟩
    · rfl
    · exact ih _ _




lemma stepSt_rel (cfg : Config) (ch : Chain) (sig : String) (i : Instr)
    (st : St) (tr : List Event) (R : St → St → Prop)
    (hrefl : ∀ s, R s s)
    (htrans : ∀ a b c, R a b → R b c → R a c)
    (hB : ∀ s a, R s (recordBurn s a))
    (hP : ∀ s row, R s (recordPurchase s row)) :
    R st (stepSt (instrStep cfg ch sig i st tr)) := by
  unfold instrStep
  split_ifs with g1 g2 g3 g4 g5
  · exact hrefl st
  · exact hrefl st
  · exact hrefl st
  · exact hrefl st
  · exact hrefl st
  · cases hc : capAdjust cfg st (calcBuzzWhole cfg (amountSolOf i)) with
    | none =>
      rw [execPolicy_cap_none cfg ch sig i st tr hc]
      exact hrefl st
    | some bw =>
      cases hs : burnSplit cfg bw with
      | none =>
        rw [execPolicy_split_none cfg ch sig i st tr bw hc hs]
        exact hrefl st
      | some p =>
        obtain ⟨buyer, burnW⟩ := p
        by_cases ht : ch.transferOk i.source buyer = true
        · by_cases hbf : burnFinal cfg buyer burnW > 0
          · by_cases hok : ch.burnOk (burnFinal cfg buyer burnW) = true
            · rw [execPolicy_success_burn cfg ch sig i st tr bw buyer burnW hc hs ht hbf hok]
              exact htrans _ _ _ (hB _ _) (hP _ _)
            · rw [execPolicy_burn_fail cfg ch sig i st tr bw buyer burnW hc hs ht hbf
                    (by simpa using hok)]
              exact hrefl st
          · rw [execPolicy_success_noburn cfg ch sig i st tr bw buyer burnW hc hs ht hbf]
            exact hP _ _
        · rw [execPolicy_transfer_fail cfg ch sig i st tr bw buyer burnW hc hs
                (by simpa using ht)]
          exact hrefl st

lemma procInstrs_rel (cfg : Config) (ch : Chain) (sig : String) (R : St → St → Prop)
    (hrefl : ∀ s, R s s)
    (htrans : ∀ a b c, R a b → R b c → R a c)
    (hB : ∀ s a, R s (recordBurn s a))
    (hP : ∀ s row, R s (recordPurchase s row)) :
    ∀ (l : List Instr) (st : St) (tr : List Event),
      R st (outSt (procInstrs cfg ch sig l st tr)) := by
  intro l
  induction l with
  | nil => intro st tr; simpa [procInstrs, outSt] using hrefl st
  | cons i rest ih =>
    intro st tr
    have hstep := stepSt_rel cfg ch sig i st tr R hrefl htrans hB hP
    rcases h : instrStep cfg ch sig i st tr with ⟨s, t⟩ | ⟨s, t⟩ | ⟨s, t⟩ <;>
      rw [h] at hstep <;> simp only [stepSt] at hstep <;>
      simp only [procInstrs, h, outSt]
    · exact hstep
    · exact hstep
    · exact htrans _ _ _ hstep (ih s t)

lemma processSignature_rel (cfg : Config) (ch : Chain) (st : St) (sig : String)
    (R : St → St → Prop)
    (hrefl : ∀ s, R s s)
    (htrans : ∀ a b c, R a b → R b c → R a c)
    (hB : ∀ s a, R s (recordBurn s a))
    (hP : ∀ s row, R s (recordPurchase s row)) :
    R st (outSt (processSignature cfg ch st sig)) := by
  unfold processSignature
  split
  · exact hrefl st
  · split
    · exact hrefl st
    · exact hrefl st
    · split
      · exact hrefl st
      · exact procInstrs_rel cfg ch sig R hrefl htrans hB hP _ st _

lemma processAll_rel (cfg : Config) (ch : Chain) (R : St → St → Prop)
    (hrefl : ∀ s, R s s)
    (htrans : ∀ a b c, R a b → R b c → R a c)
    (hB : ∀ s a, R s (recordBurn s a))
    (hP : ∀ s row, R s (recordPurchase s row)) :
    ∀ (l : List String) (st : St) (tr : List Event),
      R st (outSt (processAll cfg ch l st tr)) := by
  intro l
  induction l with
  | nil => intro st tr; simpa [processAll, outSt] using hrefl st
  | cons s rest ih =>
    intro st tr
    have hone := processSignature_rel cfg ch st s R hrefl htrans hB hP
    rcases h : processSignature cfg ch st s with ⟨st1, tr1⟩ | ⟨st1, tr1⟩ <;>
      rw [h] at hone <;> simp only [outSt] at hone <;>
      simp only [processAll, h]
    · exact hone
    · exact htrans _ _ _ hone (ih st1 (tr ++ tr1))

lemma poll_rel (cfg : Config) (ch : Chain) (st : St) (sigs : List String)
    (R : St → St → Prop)
    (hrefl : ∀ s, R s s)
    (htrans : ∀ a b c, R a b → R b c → R a c)
    (hB : ∀ s a, R s (recordBurn s a))
    (hP : ∀ s row, R s (recordPurchase s row)) :
    R st (poll cfg ch st sigs).1 := by
  have h := processAll_rel cfg ch R hrefl htrans hB hP sigs.reverse st []
  unfold poll
  rcases hall : processAll cfg ch sigs.reverse st [] with ⟨st1, tr1⟩ | ⟨st1, tr1⟩ <;>
    rw [hall] at h <;> simpa [outSt] using h




/-- The cap invariant carried through one loop iteration: with a
positive cap configured and the durable store in use, the recorded buyer
total stays at or below the cap. -/
lemma instrStep_cap (cfg : Config) (ch : Chain) (sig : String) (i : Instr)
    (st : St) (tr : List Event) (hcap : 0 < cfg.presaleCap)
    (hp : st.usePool = true) (hle : sumBuzz st.pgPurchases ≤ cfg.presaleCap) :
    (stepSt (instrStep cfg ch sig i st tr)).usePool = true ∧
    sumBuzz (stepSt (instrStep cfg ch sig i st tr)).pgPurchases ≤ cfg.presaleCap := by
  unfold instrStep
  split_ifs with g1 g2 g3 g4 g5
  · exact ⟨hp, hle⟩
  · exact ⟨hp, hle⟩
  · exact ⟨hp, hle⟩
  · exact ⟨hp, hle⟩
  · exact ⟨hp, hle⟩
  · cases hc : capAdjust cfg st (calcBuzzWhole cfg (amountSolOf i)) with
    | none =>
      rw [execPolicy_cap_none cfg ch sig i st tr hc]
      exact ⟨hp, hle⟩
    | some bw =>
      have hbw_pos : 0 < bw :=
        capAdjust_some_pos cfg st _ bw (by omega) hc
      have hbw_le : bw ≤ cfg.presaleCap - (getTotals st).2 :=
        capAdjust_some_bound cfg st _ bw hcap hc
      rw [getTotals_pool st hp] at hbw_le
      cases hs : burnSplit cfg bw with
      | none =>
        rw [execPolicy_split_none cfg ch sig i st tr bw hc hs]
        exact ⟨hp, hle⟩
      | some p =>
        obtain ⟨buyer, burnW⟩ := p
        obtain ⟨hb1, hb2, hb3⟩ := burnSplit_le cfg bw buyer burnW hbw_pos hs
        by_cases ht : ch.transferOk i.source buyer = true
        · by_cases hbf : burnFinal cfg buyer burnW > 0
          · by_cases hok : ch.burnOk (burnFinal cfg buyer burnW) = true
            · rw [execPolicy_success_burn cfg ch sig i st tr bw buyer burnW hc hs ht hbf hok]
              simp only [stepSt]
              set bf := burnFinal cfg buyer burnW
              have hpb : (recordBurn st bf).usePool = true := by
                rw [recordBurn_usePool]; exact hp
              have hgb : (recordBurn st bf).pgPurchases = st.pgPurchases :=
                recordBurn_pgPurchases st bf
              constructor
              · rw [recordPurchase_usePool, hpb]
              · by_cases hdup : (recordBurn st bf).pgPurchases.any
                    (fun r => r.sig == (⟨sig, i.source, amountSolOf i, buyer⟩ : Purchase).sig) = true
                · rw [recordPurchase_pool_dup _ _ hpb hdup, hgb]
                  exact hle
                · rw [recordPurchase_pool_new _ _ hpb (by simpa using hdup)]
                  simp only [sumBuzz_append, hgb]
                  omega
            · rw [execPolicy_burn_fail cfg ch sig i st tr bw buyer burnW hc hs ht hbf
                    (by simpa using hok)]
              exact ⟨hp, hle⟩
          · rw [execPolicy_success_noburn cfg ch sig i st tr bw buyer burnW hc hs ht hbf]
            simp only [stepSt]
            constructor
            · rw [recordPurchase_usePool]; exact hp
            · by_cases hdup : st.pgPurchases.any
                  (fun r => r.sig == (⟨sig, i.source, amountSolOf i, buyer⟩ : Purchase).sig) = true
              · rw [recordPurchase_pool_dup _ _ hp hdup]
                exact hle
              · rw [recordPurchase_pool_new _ _ hp (by simpa using hdup)]
                simp only [sumBuzz_append]
                omega
        · rw [execPolicy_transfer_fail cfg ch sig i st tr bw buyer burnW hc hs
                (by simpa using ht)]
          exact ⟨hp, hle⟩

lemma procInstrs_cap (cfg : Config) (ch : Chain) (sig : String)
    (hcap : 0 < cfg.presaleCap) :
    ∀ (l : List Instr) (st : St) (tr : List Event),
      st.usePool = true → sumBuzz st.pgPurchases ≤ cfg.presaleCap →
      (outSt (procInstrs cfg ch sig l st tr)).usePool = true ∧
      sumBuzz (outSt (procInstrs cfg ch sig l st tr)).pgPurchases ≤ cfg.presaleCap := by
  intro l
  induction l with
  | nil => intro st tr hp hle; simpa [procInstrs, outSt] using ⟨hp, hle⟩
  | cons i rest ih =>
    intro st tr hp hle
    have hstep := instrStep_cap cfg ch sig i st tr hcap hp hle
    rcases h : instrStep cfg ch sig i st tr with ⟨s, t⟩ | ⟨s, t⟩ | ⟨s, t⟩ <;>
      rw [h] at hstep <;> simp only [stepSt] at hstep <;>
      simp only [procInstrs, h]
    · exact hstep
    · exact hstep
    · exact ih s t hstep.1 hstep.2

lemma processSignature_cap (cfg : Config) (ch : Chain) (st : St) (sig : String)
    (hcap : 0 < cfg.presaleCap) (hp : st.usePool = true)
    (hle : sumBuzz st.pgPurchases ≤ cfg.presaleCap) :
    (outSt (processSignature cfg ch st sig)).usePool = true ∧
    sumBuzz (outSt (processSignature cfg ch st sig)).pgPurchases ≤ cfg.presaleCap := by
  unfold processSignature
  split
  · exact ⟨hp, hle⟩
  · split
    · exact ⟨hp, hle⟩
    · exact ⟨hp, hle⟩
    · split
      · exact ⟨hp, hle⟩
      · exact procInstrs_cap cfg ch sig hcap _ st _ hp hle

lemma processAll_cap (cfg : Config) (ch : Chain) (hcap : 0 < cfg.presaleCap) :
    ∀ (l : List String) (st : St) (tr : List Event),
      st.usePool = true → sumBuzz st.pgPurchases ≤ cfg.presaleCap →
      (outSt (processAll cfg ch l st tr)).usePool = true ∧
      sumBuzz (outSt (processAll cfg ch l st tr)).pgPurchases ≤ cfg.presaleCap := by
  intro l
  induction l with
  | nil => intro st tr hp hle; simpa [processAll, outSt] using ⟨hp, hle⟩
  | cons s rest ih =>
    intro st tr hp hle
    have hone := processSignature_cap cfg ch st s hcap hp hle
    rcases h : processSignature cfg ch st s with ⟨st1, tr1⟩ | ⟨st1, tr1⟩ <;>
      rw [h] at hone <;> simp only [outSt] at hone <;>
      simp only [processAll, h]
    · exact hone
    · exact ih st1 (tr ++ tr1) hone.1 hone.2

lemma poll_cap (cfg : Config) (ch : Chain) (st : St) (sigs : List String)
    (hcap : 0 < cfg.presaleCap) (hp : st.usePool = true)
    (hle : sumBuzz st.pgPurchases ≤ cfg.presaleCap) :
    (poll cfg ch st sigs).1.usePool = true ∧
    sumBuzz (poll cfg ch st sigs).1.pgPurchases ≤ cfg.presaleCap := by
  have h := processAll_cap cfg ch hcap sigs.reverse st [] hp hle
  unfold poll
  rcases hall : processAll cfg ch sigs.reverse st [] with ⟨st1, tr1⟩ | ⟨st1, tr1⟩ <;>
    rw [hall] at h <;> simpa [outSt] using h




lemma capAdjust_none_of (cfg : Config) (st : St) (b0 : ℤ)
    (hcap : 0 < cfg.presaleCap) (hT : cfg.presaleCap ≤ (getTotals st).2) :
    capAdjust cfg st b0 = none := by
  unfold capAdjust
  rw [if_pos hcap, if_pos (by rw [max_le_iff]; omega)]

lemma capAdjust_noclamp (cfg : Config) (st : St) (b0 : ℤ)
    (hcap : 0 < cfg.presaleCap) (hT : (getTotals st).2 < cfg.presaleCap)
    (hle : b0 ≤ cfg.presaleCap - (getTotals st).2) :
    capAdjust cfg st b0 = some b0 := by
  unfold capAdjust
  have hm : max 0 (cfg.presaleCap - (getTotals st).2) =
      cfg.presaleCap - (getTotals st).2 := max_eq_right (by omega)
  rw [if_pos hcap]
  simp only [hm]
  rw [if_neg (by omega), if_neg (by omega)]

lemma capAdjust_clamp (cfg : Config) (st : St) (b0 : ℤ)
    (hcap : 0 < cfg.presaleCap) (hT : (getTotals st).2 < cfg.presaleCap)
    (hgt : cfg.presaleCap - (getTotals st).2 < b0) :
    capAdjust cfg st b0 = some (cfg.presaleCap - (getTotals st).2) := by
  unfold capAdjust
  have hm : max 0 (cfg.presaleCap - (getTotals st).2) =
      cfg.presaleCap - (getTotals st).2 := max_eq_right (by omega)
  rw [if_pos hcap]
  simp only [hm]
  rw [if_neg (by omega), if_pos (by omega)]

lemma burnSplit_take (cfg : Config) (bw : ℤ)
    (htake : cfg.burnMode = "take") (hbps : 0 < cfg.burnRateBps)
    (hpos : 0 < bw - bw * cfg.burnRateBps / 10000) :
    burnSplit cfg bw =
      some (bw - bw * cfg.burnRateBps / 10000, bw * cfg.burnRateBps / 10000) := by
  unfold burnSplit
  rw [if_pos ⟨htake, hbps⟩, if_neg (by omega)]

lemma burnSplit_take_none (cfg : Config) (bw : ℤ)
    (htake : cfg.burnMode = "take") (hbps : 0 < cfg.burnRateBps)
    (hneg : bw - bw * cfg.burnRateBps / 10000 ≤ 0) :
    burnSplit cfg bw = none := by
  unfold burnSplit
  rw [if_pos ⟨htake, hbps⟩, if_pos hneg]

lemma burnFinal_extra (cfg : Config) (buyer w : ℤ)
    (hextra : cfg.burnMode = "extra") (hbps : 0 < cfg.burnRateBps) :
    burnFinal cfg buyer w = buyer * cfg.burnRateBps / 10000 := by
  unfold burnFinal
  rw [if_pos ⟨hextra, hbps⟩]

lemma burnFinal_noextra (cfg : Config) (buyer w : ℤ)
    (h : ¬ (cfg.burnMode = "extra" ∧ 0 < cfg.burnRateBps)) :
    burnFinal cfg buyer w = w := by
  unfold burnFinal
  rw [if_neg h]

lemma hasProcessed_false_any (st : St) (sig : String) (hp : st.usePool = true)
    (h : hasProcessed st sig = false) :
    st.pgPurchases.any (fun r => r.sig == sig) = false := by
  rw [hasProcessed_pool st sig hp] at h
  exact h

lemma processSignature_single_success (cfg : Config) (ch : Chain) (st : St)
    (sig : String) (tx : Tx) (i : Instr) (bw buyer burnW : ℤ)
    (hnp : hasProcessed st sig = false) (hf : ch.fetch sig = .found tx)
    (htx : tx.err = false) (hins : tx.instructions = [i]) (hq : qualInstr cfg i)
    (hcapA : capAdjust cfg st (calcBuzzWhole cfg (amountSolOf i)) = some bw)
    (hsplit : burnSplit cfg bw = some (buyer, burnW))
    (ht : ch.transferOk i.source buyer = true)
    (hok : burnFinal cfg buyer burnW > 0 → ch.burnOk (burnFinal cfg buyer burnW) = true) :
    processSignature cfg ch st sig =
      .ok (recordPurchase
             (if burnFinal cfg buyer burnW > 0 then
                recordBurn st (burnFinal cfg buyer burnW)
              else st)
             ⟨sig, i.source, amountSolOf i, buyer⟩,
           [Event.fetchTx sig, Event.transferCall i.source buyer] ++
             (if burnFinal cfg buyer burnW > 0 then
                [Event.burnCall (burnFinal cfg buyer burnW),
                 Event.commitBurn (burnFinal cfg buyer burnW)]
              else []) ++
             [Event.commitPurchase ⟨sig, i.source, amountSolOf i, buyer⟩]) := by
  rw [processSignature_found cfg ch st sig tx hnp hf htx, hins, procInstrs_singleton,
      instrStep_qual cfg ch sig i st _ hq]
  by_cases hbf : burnFinal cfg buyer burnW > 0
  · rw [execPolicy_success_burn cfg ch sig i st _ bw buyer burnW hcapA hsplit ht hbf (hok hbf)]
    simp [hbf]
  · rw [execPolicy_success_noburn cfg ch sig i st _ bw buyer burnW hcapA hsplit ht hbf]
    simp [hbf]

lemma processSignature_single_transfer_fail (cfg : Config) (ch : Chain) (st : St)
    (sig : String) (tx : Tx) (i : Instr) (bw buyer burnW : ℤ)
    (hnp : hasProcessed st sig = false) (hf : ch.fetch sig = .found tx)
    (htx : tx.err = false) (hins : tx.instructions = [i]) (hq : qualInstr cfg i)
    (hcapA : capAdjust cfg st (calcBuzzWhole cfg (amountSolOf i)) = some bw)
    (hsplit : burnSplit cfg bw = some (buyer, burnW))
    (ht : ch.transferOk i.source buyer = false) :
    processSignature cfg ch st sig =
      .error (st, [Event.fetchTx sig, Event.transferCall i.source buyer]) := by
  rw [processSignature_found cfg ch st sig tx hnp hf htx, hins, procInstrs_singleton,
      instrStep_qual cfg ch sig i st _ hq,
      execPolicy_transfer_fail cfg ch sig i st _ bw buyer burnW hcapA hsplit ht]
  simp

lemma processSignature_single_guard (cfg : Config) (ch : Chain) (st : St)
    (sig : String) (tx : Tx) (i : Instr)
    (hnp : hasProcessed st sig = false) (hf : ch.fetch sig = .found tx)
    (htx : tx.err = false) (hins : tx.instructions = [i])
    (h1 : i.program = "system") (h2 : i.parsedType = "transfer")
    (h3 : i.destination = cfg.treasury) (h4 : 0 < i.lamports)
    (h5 : amountSolOf i < cfg.minSol ∨ amountSolOf i > cfg.maxSol) :
    processSignature cfg ch st sig = .ok (st, [Event.fetchTx sig]) := by
  rw [processSignature_found cfg ch st sig tx hnp hf htx, hins, procInstrs_singleton,
      instrStep_guard_skip cfg ch sig i st _ h1 h2 h3 h4 h5]

lemma find?_first {α : Type} (p : α → Bool) (l1 l2 : List α) (t : α)
    (h1 : ∀ x ∈ l1, p x = false) (ht : p t = true) :
    List.find? p (l1 ++ t :: l2) = some t := by
  induction l1 with
  | nil => simp [List.find?_cons, ht]
  | cons a as ih =>
    rw [List.cons_append, List.find?_cons_of_neg]
    · exact ih (fun x hx => h1 x (by simp [hx]))
    · simp [h1 a (by simp)]

/-- C5: a deposit whose base amount lies within the 1e-9 absolute
tolerance of a configured tier price yields that tier's fixed payout,
the tiers being scanned in list order with the first match winning,
for every linear fallback rate; with no matching tier the payout is
the floor of amount times the linear rate. -/
theorem tier_exactness_c5 :
    (∀ (cfg : Config) (amt : ℚ) (l1 l2 : List Tier) (t : Tier),
      cfg.tiers = l1 ++ t :: l2 →
      (∀ t' ∈ l1, ¬ (|t'.sol - amt| < 1 / 1000000000)) →
      |t.sol - amt| < 1 / 1000000000 →
      calcBuzzWhole cfg amt = t.buzz) ∧
    (∀ (cfg : Config) (amt : ℚ),
      (∀ t ∈ cfg.tiers, ¬ (|t.sol - amt| < 1 / 1000000000)) →
      calcBuzzWhole cfg amt = ⌊amt * cfg.buzzPerSol⌋) := by
  constructor
  · intro cfg amt l1 l2 t htiers h1 ht
    unfold calcBuzzWhole
    rw [htiers, find?_first _ l1 l2 t (fun x hx => by simpa using h1 x hx)
          (by simpa using ht)]
  · intro cfg amt h
    unfold calcBuzzWhole
    rw [List.find?_eq_none.mpr (fun x hx => by simpa using h x hx)]

/-- C5 witness: the 0.10 SOL tier pays exactly 5,000,000 and a 1 SOL
deposit matching no tier pays the linear 70,000,000. -/
theorem tier_exactness_c5_witness :
    calcBuzzWhole cfgTiers (1/10) = 5000000 ∧ calcBuzzWhole cfgTiers 1 = 70000000 := by
  constructor
  · exact tier_exactness_c5.1 cfgTiers (1/10) []
      [⟨1/4, 15000000⟩, ⟨1/2, 35000000⟩] ⟨1/10, 5000000⟩ rfl (by simp) (by norm_num)
  · have h := tier_exactness_c5.2 cfgTiers 1 (by
      intro t ht
      simp only [cfgTiers, List.mem_cons, List.not_mem_nil, or_false] at ht
      rcases ht with rfl | rfl | rfl <;>
        (rw [abs_sub_comm, abs_of_nonneg (by norm_num)]; norm_num))
    rw [h]
    norm_num [cfgTiers]



/-- C6 counterexample: a 0.01 SOL deposit is below the 0.05 minimum
guard; processing leaves the store untouched and the signature is not
marked as seen, contradicting the claim that a guard-rejected deposit
is still marked to avoid reprocessing. -/
theorem guard_c6_counterexample :
    processSignature cfgTiers (chAll ⟨false, [iDust]⟩) stPool "s6" =
      .ok (stPool, [Event.fetchTx "s6"]) ∧
    hasProcessed stPool "s6" = false := by
  refine ⟨?_, rfl⟩
  exact processSignature_single_guard cfgTiers _ stPool "s6" ⟨false, [iDust]⟩ iDust
    rfl rfl rfl rfl rfl rfl rfl (by decide)
    (Or.inl (by norm_num [amountSolOf, iDust, mkI, cfgTiers]))

/-- C6 amended: a deposit failing the MIN_SOL / MAX_SOL guards is not
eligible and no payout or record is made, but the transaction is NOT
marked as seen: the state is unchanged and the signature stays absent
from the ledger, so the transaction is fetched and re-evaluated again on
every future cycle while it stays in the recent-signature window. -/
theorem guard_c6 (cfg : Config) (ch : Chain) (st : St) (sig : String)
    (tx : Tx) (i : Instr)
    (hnp : hasProcessed st sig = false) (hf : ch.fetch sig = .found tx)
    (htx : tx.err = false) (hins : tx.instructions = [i])
    (h1 : i.program = "system") (h2 : i.parsedType = "transfer")
    (h3 : i.destination = cfg.treasury) (h4 : 0 < i.lamports)
    (h5 : amountSolOf i < cfg.minSol ∨ amountSolOf i > cfg.maxSol) :
    processSignature cfg ch st sig = .ok (st, [Event.fetchTx sig]) ∧
    hasProcessed (outSt (processSignature cfg ch st sig)) sig = false := by
  have h := processSignature_single_guard cfg ch st sig tx i hnp hf htx hins h1 h2 h3 h4 h5
  exact ⟨h, by rw [h]; exact hnp⟩

/-- C6 witness: the guard theorem applied to the concrete dust deposit. -/
theorem guard_c6_witness :
    processSignature cfgTiers (chAll ⟨false, [iDust]⟩) stPool "w6" =
      .ok (stPool, [Event.fetchTx "w6"]) ∧
    hasProcessed (outSt (processSignature cfgTiers (chAll ⟨false, [iDust]⟩) stPool "w6")) "w6" =
      false :=
  guard_c6 cfgTiers (chAll ⟨false, [iDust]⟩) stPool "w6" ⟨false, [iDust]⟩ iDust
    rfl rfl rfl rfl rfl rfl rfl (by decide)
    (Or.inl (by norm_num [amountSolOf, iDust, mkI, cfgTiers]))

/-- C9 amended: the durable (Postgres) store satisfies the contracts —
a commit for an already-committed signature is silently dropped, totals
are the sums over all committed purchase rows, and totalBurned is the
sum over all committed burn rows.  The volatile store diverges: a
repeated commit for an already-committed signature still prepends
another row (deduplication happens only through hasProcessed), totals
range only over the at most 50 retained rows, burns are never recorded
and totalBurned is constantly 0. -/
theorem store_c9 :
    (∀ (st : St) (row : Purchase), st.usePool = true →
      hasProcessed st row.sig = true → recordPurchase st row = st) ∧
    (∀ st : St, st.usePool = true →
      getTotals st = (sumSol st.pgPurchases, sumBuzz st.pgPurchases) ∧
      getTotalBurned st = sumBurn st.pgBurns) ∧
    (∀ (st : St) (row : Purchase), st.usePool = false →
      hasProcessed st row.sig = true →
      (recordPurchase st row).memRows = (row :: st.memRows).take 50 ∧
      getTotals st = (sumSol st.memRows, sumBuzz st.memRows) ∧
      getTotalBurned st = 0 ∧ ∀ a : ℤ, recordBurn st a = st) := by
  refine ⟨?_, ?_, ?_⟩
  · intro st row hp h
    exact recordPurchase_pool_dup st row hp (by rwa [hasProcessed_pool st row.sig hp] at h)
  · intro st hp
    exact ⟨getTotals_pool st hp, by simp [getTotalBurned, hp]⟩
  · intro st row hm h
    refine ⟨by simp [recordPurchase, hm], getTotals_mem st hm,
            by simp [getTotalBurned, hm], ?_⟩
    intro a
    unfold recordBurn
    split_ifs with g1 g2 <;> simp_all

/-- C9 counterexample: in memory mode, committing a purchase whose
signature is already committed (hasProcessed is true) prepends a second
row instead of being dropped, so two rows for the same signature exist. -/
theorem store_c9_counterexample :
    hasProcessed (recordPurchase stMem ⟨"m1", "B", 1, 5⟩) "m1" = true ∧
    (recordPurchase (recordPurchase stMem ⟨"m1", "B", 1, 5⟩)
        ⟨"m1", "B", 1, 5⟩).memRows.length = 2 := by
  constructor <;> rfl

/-- C9 witness: in Postgres mode a duplicate commit is dropped; in
memory mode the duplicate commit prepends another retained row and
burned totals read 0. -/
theorem store_c9_witness :
    recordPurchase stDone ⟨"p1", "B9", 2, 7⟩ = stDone ∧
    (recordPurchase (⟨false, ["m1"], [⟨"m1", "B", 1, 5⟩], [], []⟩ : St)
        ⟨"m1", "B", 1, 5⟩).memRows =
      ((⟨"m1", "B", 1, 5⟩ : Purchase) :: [⟨"m1", "B", 1, 5⟩]).take 50 ∧
    getTotalBurned (⟨false, ["m1"], [⟨"m1", "B", 1, 5⟩], [], []⟩ : St) = 0 :=
  ⟨store_c9.1 stDone ⟨"p1", "B9", 2, 7⟩ rfl (by decide),
   (store_c9.2.2 _ ⟨"m1", "B", 1, 5⟩ rfl (by decide)).1,
   (store_c9.2.2 _ ⟨"m1", "B", 1, 5⟩ rfl (by decide)).2.2.1⟩





lemma calc_linear_tenth : calcBuzzWhole cfgLinear (amountSolOf iTenth) = 7000000 := by
  norm_num [calcBuzzWhole, cfgLinear, amountSolOf, iTenth, mkI]

lemma calc_linear_half : calcBuzzWhole cfgLinear (amountSolOf iHalf) = 35000000 := by
  norm_num [calcBuzzWhole, cfgLinear, amountSolOf, iHalf, mkI]

lemma qual_linear_tenth : qualInstr cfgLinear iTenth := by
  refine ⟨rfl, rfl, rfl, by decide, ?_, ?_⟩
  · rw [not_or]
    constructor <;> norm_num [amountSolOf, iTenth, mkI, cfgLinear]
  · rw [calc_linear_tenth]; norm_num

lemma qual_linear_half : qualInstr cfgLinear iHalf := by
  refine ⟨rfl, rfl, rfl, by decide, ?_, ?_⟩
  · rw [not_or]
    constructor <;> norm_num [amountSolOf, iHalf, mkI, cfgLinear]
  · rw [calc_linear_half]; norm_num

/-- C7 amended: an error thrown while processing one candidate is
caught at the cycle level (poll returns normally, flagging the logged
error), but it aborts the entire remainder of the cycle: the final state
and trace are exactly those accumulated up to and including the failing
candidate, and the candidates after it contribute nothing this cycle;
being unmarked, they are picked up again on the next cycle. -/
theorem poll_c7 (cfg : Config) (ch : Chain) (st : St) (l1 : List String)
    (s : String) (l2 : List String) (st1 st2 : St) (tr1 tr2 : List Event)
    (h1 : processAll cfg ch l1 st [] = .ok (st1, tr1))
    (h2 : processSignature cfg ch st1 s = .error (st2, tr2)) :
    poll cfg ch st (l1 ++ s :: l2).reverse = (st2, tr1 ++ tr2, true) := by
  unfold poll
  rw [List.reverse_reverse, processAll_append, h1]
  simp only [processAll, h2]

/-- C7 counterexample: with two chronological candidates s1 and s2
(the poll list is newest-first), a transfer failure on s1 makes the
cycle end with s2 never fetched or processed, although processing s2
alone would have succeeded and committed — refuting the claim that the
remaining candidates of the same cycle are still processed. -/
theorem poll_c7_counterexample :
    poll cfgLinear chTwoFail1 stPool ["s2", "s1"] =
      (stPool, [Event.fetchTx "s1", Event.transferCall "B1" 7000000], true) ∧
    hasProcessed stPool "s2" = false ∧
    processSignature cfgLinear chTwoFail1 stPool "s2" =
      .ok (⟨true, [], [], [⟨"s2", "B2", amountSolOf iHalf, 35000000⟩], []⟩,
           [Event.fetchTx "s2", Event.transferCall "B2" 35000000,
            Event.commitPurchase ⟨"s2", "B2", amountSolOf iHalf, 35000000⟩]) := by
  have hcapT : capAdjust cfgLinear stPool (calcBuzzWhole cfgLinear (amountSolOf iTenth)) =
      some 7000000 := by
    rw [capAdjust_off cfgLinear stPool _ (by norm_num [cfgLinear]), calc_linear_tenth]
  have hsplitT : burnSplit cfgLinear 7000000 = some (7000000, 0) :=
    burnSplit_notake cfgLinear 7000000 (by simp [cfgLinear])
  have hfail := processSignature_single_transfer_fail cfgLinear chTwoFail1 stPool "s1"
    ⟨false, [iTenth]⟩ iTenth 7000000 7000000 0 rfl (by simp [chTwoFail1]) rfl rfl
    qual_linear_tenth hcapT hsplitT (by decide)
  refine ⟨?_, rfl, ?_⟩
  · unfold poll
    rw [show (["s2", "s1"] : List String).reverse = ["s1", "s2"] from rfl]
    simp only [processAll, hfail]
    simp [iTenth, mkI]
  · have hcapH : capAdjust cfgLinear stPool (calcBuzzWhole cfgLinear (amountSolOf iHalf)) =
        some 35000000 := by
      rw [capAdjust_off cfgLinear stPool _ (by norm_num [cfgLinear]), calc_linear_half]
    have hsplitH : burnSplit cfgLinear 35000000 = some (35000000, 0) :=
      burnSplit_notake cfgLinear 35000000 (by simp [cfgLinear])
    have hs := processSignature_single_success cfgLinear chTwoFail1 stPool "s2"
      ⟨false, [iHalf]⟩ iHalf 35000000 35000000 0 rfl (by simp [chTwoFail1]) rfl rfl
      qual_linear_half hcapH hsplitH (by decide)
      (by intro hbf; exact absurd hbf (by norm_num [burnFinal, cfgLinear]))
    rw [hs]
    norm_num [burnFinal, cfgLinear, recordPurchase, stPool, iHalf, mkI]

/-- C7 witness: the cycle-abort theorem applied to the concrete
two-candidate cycle, the first candidate failing. -/
theorem poll_c7_witness :
    poll cfgLinear chTwoFail1 stPool (([] : List String) ++ "s1" :: ["s2"]).reverse =
      (stPool, [] ++ [Event.fetchTx "s1", Event.transferCall "B1" 7000000], true) := by
  have hcapT : capAdjust cfgLinear stPool (calcBuzzWhole cfgLinear (amountSolOf iTenth)) =
      some 7000000 := by
    rw [capAdjust_off cfgLinear stPool _ (by norm_num [cfgLinear]), calc_linear_tenth]
  have hsplitT : burnSplit cfgLinear 7000000 = some (7000000, 0) :=
    burnSplit_notake cfgLinear 7000000 (by simp [cfgLinear])
  exact poll_c7 cfgLinear chTwoFail1 stPool [] "s1" ["s2"] stPool stPool []
    [Event.fetchTx "s1", Event.transferCall "B1" 7000000] rfl
    (processSignature_single_transfer_fail cfgLinear chTwoFail1 stPool "s1"
      ⟨false, [iTenth]⟩ iTenth 7000000 7000000 0 rfl (by simp [chTwoFail1]) rfl rfl
      qual_linear_tenth hcapT hsplitT (by decide))













lemma recordPurchase_pairwise (st : St) (row : Purchase) (hp : st.usePool = true)
    (h : sigsUnique st.pgPurchases) :
    sigsUnique (recordPurchase st row).pgPurchases := by
  unfold sigsUnique at h ⊢
  by_cases hdup : st.pgPurchases.any (fun r => r.sig == row.sig) = true
  · rw [recordPurchase_pool_dup st row hp hdup]
    exact h
  · rw [recordPurchase_pool_new st row hp (by simpa using hdup)]
    rw [List.pairwise_append]
    refine ⟨h, by simp, ?_⟩
    intro a ha b hb
    simp only [List.mem_singleton] at hb
    subst hb
    simp only [List.any_eq_true, beq_iff_eq, not_exists, not_and] at hdup
    push_neg at hdup
    exact hdup a ha

lemma qual_take_1SOL : qualInstr cfgTake i1SOL := by
  refine ⟨rfl, rfl, rfl, by decide, ?_, ?_⟩
  · rw [not_or]
    constructor <;> norm_num [amountSolOf, i1SOL, mkI, cfgTake]
  · norm_num [calcBuzzWhole, cfgTake, amountSolOf, i1SOL, mkI]

lemma calc_take_1SOL : calcBuzzWhole cfgTake (amountSolOf i1SOL) = 2000 := by
  norm_num [calcBuzzWhole, cfgTake, amountSolOf, i1SOL, mkI]

lemma split_take_2000 : burnSplit cfgTake 2000 = some (1900, 100) := by
  rw [burnSplit_take cfgTake 2000 rfl (by decide) (by decide)]
  decide

/-- C1 counterexample: with take-mode burn, a deposit whose transfer
succeeds but whose burn call fails leaves the ledger empty, so
reprocessing the same signature issues the payout call a second time:
both processing passes contain a transferCall for signature c1. -/
theorem idem_c1_counterexample :
    processSignature cfgTake (chBurnFail tx1SOL) stPool "c1" =
      .error (stPool, [Event.fetchTx "c1", Event.transferCall "B1" 1900,
                       Event.burnCall 100]) ∧
    processSignature cfgTake (chAll tx1SOL) stPool "c1" =
      .ok (⟨true, [], [], [⟨"c1", "B1", amountSolOf i1SOL, 1900⟩], [100]⟩,
           [Event.fetchTx "c1", Event.transferCall "B1" 1900, Event.burnCall 100,
            Event.commitBurn 100,
            Event.commitPurchase ⟨"c1", "B1", amountSolOf i1SOL, 1900⟩]) := by
  have hcapA : capAdjust cfgTake stPool (calcBuzzWhole cfgTake (amountSolOf i1SOL)) =
      some 2000 := by
    rw [capAdjust_off cfgTake stPool _ (by decide), calc_take_1SOL]
  have hbf : burnFinal cfgTake 1900 100 = 100 := by decide
  constructor
  · rw [processSignature_found cfgTake (chBurnFail tx1SOL) stPool "c1" tx1SOL rfl rfl rfl,
        show tx1SOL.instructions = [i1SOL] from rfl, procInstrs_singleton,
        instrStep_qual cfgTake (chBurnFail tx1SOL) "c1" i1SOL stPool _ qual_take_1SOL,
        execPolicy_burn_fail cfgTake (chBurnFail tx1SOL) "c1" i1SOL stPool _ 2000 1900 100
          hcapA split_take_2000 rfl (by rw [hbf]; decide) (by rw [hbf]; rfl)]
    simp [hbf, i1SOL, mkI]
  · rw [processSignature_single_success cfgTake (chAll tx1SOL) stPool "c1" tx1SOL i1SOL
          2000 1900 100 rfl rfl rfl rfl qual_take_1SOL hcapA split_take_2000 rfl
          (fun _ => rfl)]
    rw [hbf]
    norm_num [recordBurn, recordPurchase, stPool, i1SOL, mkI]

/-- C1 amended: a signature already present in the Ledger Store is
skipped before any Chain Client fetch — no fetch, no payout call, no
record, state unchanged — and processing preserves uniqueness of
signatures in the durable purchases table, so at most one purchase row
per signature ever exists there.  (When an earlier attempt paid but
failed before the commit, reprocessing does pay again — the documented
at-least-once asymmetry shown in the counterexample.) -/
theorem idem_c1 :
    (∀ (cfg : Config) (ch : Chain) (st : St) (sig : String),
      hasProcessed st sig = true → processSignature cfg ch st sig = .ok (st, [])) ∧
    (∀ (cfg : Config) (ch : Chain) (st : St) (sig : String),
      st.usePool = true →
      sigsUnique st.pgPurchases →
      sigsUnique (outSt (processSignature cfg ch st sig)).pgPurchases) := by
  constructor
  · intro cfg ch st sig h
    exact processSignature_skip cfg ch st sig h
  · intro cfg ch st sig hp hpw
    have h := processSignature_rel cfg ch st sig
      (fun a b => (a.usePool = true → b.usePool = true) ∧
        (a.usePool = true → sigsUnique a.pgPurchases → sigsUnique b.pgPurchases))
      (fun s => ⟨id, fun _ hq => hq⟩)
      (fun a b c hab hbc =>
        ⟨fun ha => hbc.1 (hab.1 ha), fun ha hq => hbc.2 (hab.1 ha) (hab.2 ha hq)⟩)
      (fun s a => ⟨fun hu => by rwa [recordBurn_usePool],
        fun hu hq => by rwa [recordBurn_pgPurchases]⟩)
      (fun s row => ⟨fun hu => by rwa [recordPurchase_usePool],
        fun hu hq => recordPurchase_pairwise s row hu hq⟩)
    exact h.2 hp hpw

/-- C1 witness: the skip branch and the uniqueness preservation applied
to concrete stores. -/
theorem idem_c1_witness :
    processSignature cfgLinear (chAll tx1SOL) stDone "p1" = .ok (stDone, []) ∧
    sigsUnique (outSt (processSignature cfgLinear (chAll txHalf) stPool "w1")).pgPurchases :=
  ⟨idem_c1.1 cfgLinear (chAll tx1SOL) stDone "p1" (by decide),
   idem_c1.2 cfgLinear (chAll txHalf) stPool "w1" rfl (by simp [sigsUnique, stPool])⟩



lemma instrStep_exhausted (cfg : Config) (ch : Chain) (sig : String) (i : Instr)
    (st : St) (tr : List Event) (hcap : 0 < cfg.presaleCap)
    (hT : cfg.presaleCap ≤ (getTotals st).2) :
    instrStep cfg ch sig i st tr = .next st tr ∨
    instrStep cfg ch sig i st tr = .halt st tr := by
  unfold instrStep
  split_ifs with g1 g2 g3 g4 g5
  · exact Or.inl rfl
  · exact Or.inl rfl
  · exact Or.inl rfl
  · exact Or.inl rfl
  · exact Or.inl rfl
  · exact Or.inr (execPolicy_cap_none cfg ch sig i st tr
      (capAdjust_none_of cfg st _ hcap hT))

lemma procInstrs_exhausted (cfg : Config) (ch : Chain) (sig : String) (st : St)
    (hcap : 0 < cfg.presaleCap) (hT : cfg.presaleCap ≤ (getTotals st).2) :
    ∀ (l : List Instr) (tr : List Event),
      procInstrs cfg ch sig l st tr = .ok (st, tr) := by
  intro l
  induction l with
  | nil => intro tr; rfl
  | cons i rest ih =>
    intro tr
    rcases instrStep_exhausted cfg ch sig i st tr hcap hT with h | h <;>
      simp only [procInstrs, h]
    exact ih tr

lemma exact_fill (cfg : Config) (ch : Chain) (st : St) (sig : String)
    (tx : Tx) (i : Instr)
    (hp : st.usePool = true) (hnp : hasProcessed st sig = false)
    (hf : ch.fetch sig = .found tx) (htx : tx.err = false)
    (hins : tx.instructions = [i]) (hq : qualInstr cfg i)
    (hcap : 0 < cfg.presaleCap) (hT : (getTotals st).2 < cfg.presaleCap)
    (hover : cfg.presaleCap - (getTotals st).2 < calcBuzzWhole cfg (amountSolOf i))
    (hnotake : ¬ (cfg.burnMode = "take" ∧ cfg.burnRateBps > 0))
    (ht : ch.transferOk i.source (cfg.presaleCap - (getTotals st).2) = true)
    (hok : burnFinal cfg (cfg.presaleCap - (getTotals st).2) 0 > 0 →
      ch.burnOk (burnFinal cfg (cfg.presaleCap - (getTotals st).2) 0) = true) :
    (getTotals (outSt (processSignature cfg ch st sig))).2 = cfg.presaleCap := by
  have hcapA := capAdjust_clamp cfg st (calcBuzzWhole cfg (amountSolOf i)) hcap hT hover
  have hsplit := burnSplit_notake cfg (cfg.presaleCap - (getTotals st).2) hnotake
  have hs := processSignature_single_success cfg ch st sig tx i
    (cfg.presaleCap - (getTotals st).2) (cfg.presaleCap - (getTotals st).2) 0
    hnp hf htx hins hq hcapA hsplit ht hok
  rw [hs]
  simp only [outSt]
  set bf := burnFinal cfg (cfg.presaleCap - (getTotals st).2) 0 with hbf
  set stMid := if bf > 0 then recordBurn st bf else st with hmid
  have hpm : stMid.usePool = true := by
    rw [hmid]; split <;> [rw [recordBurn_usePool]; skip] <;> exact hp
  have hgm : stMid.pgPurchases = st.pgPurchases := by
    rw [hmid]; split <;> [rw [recordBurn_pgPurchases]; rfl]
  have hany : stMid.pgPurchases.any
      (fun r => r.sig == (⟨sig, i.source, amountSolOf i,
        cfg.presaleCap - (getTotals st).2⟩ : Purchase).sig) = false := by
    rw [hgm]
    exact hasProcessed_false_any st sig hp hnp
  rw [recordPurchase_pool_new stMid _ hpm hany]
  have hT2 := getTotals_pool st hp
  rw [getTotals_pool _ (by simpa using hpm)]
  simp only [sumBuzz_append, hgm]
  have : (getTotals st).2 = sumBuzz st.pgPurchases := by rw [hT2]
  omega

/-- C2 amended: with a positive cap and the durable store, the recorded
cumulative buyer token total never exceeds the cap over any poll
sequence; a deposit arriving with the cap already reached is not
eligible (nothing is paid or recorded); and a deposit whose raw amount
exceeds the remaining headroom is clamped to it, landing the cumulative
total exactly on the cap whenever take-mode burn is not active (in take
mode the buyer receives the clamped amount minus the burn, landing
strictly below the cap, as the counterexample shows). -/
theorem cap_c2 :
    (∀ (cfg : Config) (ch : Chain) (st : St) (sigs : List String),
      0 < cfg.presaleCap → st.usePool = true →
      (getTotals st).2 ≤ cfg.presaleCap →
      (getTotals (poll cfg ch st sigs).1).2 ≤ cfg.presaleCap) ∧
    (∀ (cfg : Config) (ch : Chain) (st : St) (sig : String) (tx : Tx),
      hasProcessed st sig = false → ch.fetch sig = .found tx → tx.err = false →
      0 < cfg.presaleCap → cfg.presaleCap ≤ (getTotals st).2 →
      processSignature cfg ch st sig = .ok (st, [Event.fetchTx sig])) ∧
    (∀ (cfg : Config) (ch : Chain) (st : St) (sig : String) (tx : Tx) (i : Instr),
      st.usePool = true → hasProcessed st sig = false →
      ch.fetch sig = .found tx → tx.err = false → tx.instructions = [i] →
      qualInstr cfg i → 0 < cfg.presaleCap →
      (getTotals st).2 < cfg.presaleCap →
      cfg.presaleCap - (getTotals st).2 < calcBuzzWhole cfg (amountSolOf i) →
      ¬ (cfg.burnMode = "take" ∧ cfg.burnRateBps > 0) →
      ch.transferOk i.source (cfg.presaleCap - (getTotals st).2) = true →
      (burnFinal cfg (cfg.presaleCap - (getTotals st).2) 0 > 0 →
        ch.burnOk (burnFinal cfg (cfg.presaleCap - (getTotals st).2) 0) = true) →
      (getTotals (outSt (processSignature cfg ch st sig))).2 = cfg.presaleCap) := by
  refine ⟨?_, ?_, ?_⟩
  · intro cfg ch st sigs hcap hp hle
    rw [getTotals_pool st hp] at hle
    obtain ⟨hp2, hle2⟩ := poll_cap cfg ch st sigs hcap hp (by simpa using hle)
    rw [getTotals_pool _ hp2]
    exact hle2
  · intro cfg ch st sig tx hnp hf htx hcap hT
    rw [processSignature_found cfg ch st sig tx hnp hf htx]
    exact procInstrs_exhausted cfg ch sig st hcap hT _ _
  · intro cfg ch st sig tx i hp hnp hf htx hins hq hcap hT hover hnotake ht hok
    exact exact_fill cfg ch st sig tx i hp hnp hf htx hins hq hcap hT hover hnotake ht hok



lemma calc_takecap_tenth : calcBuzzWhole cfgTakeCap (amountSolOf iTenth) = 200 := by
  norm_num [calcBuzzWhole, cfgTakeCap, amountSolOf, iTenth, mkI]

lemma qual_takecap_tenth : qualInstr cfgTakeCap iTenth := by
  refine ⟨rfl, rfl, rfl, by decide, ?_, ?_⟩
  · rw [not_or]
    constructor <;> norm_num [amountSolOf, iTenth, mkI, cfgTakeCap]
  · rw [calc_takecap_tenth]; norm_num

/-- C2 counterexample: cap 100, take-mode 5 percent burn; a deposit
computing 200 raw tokens crosses the cap and is clamped to 100, but the
buyer receives 95 after the burn, so the cumulative total lands at 95,
not exactly on the cap of 100. -/
theorem cap_c2_counterexample :
    (0 : ℤ) < cfgTakeCap.presaleCap ∧
    calcBuzzWhole cfgTakeCap (amountSolOf iTenth) = 200 ∧
    processSignature cfgTakeCap (chAll txTenth) stPool "x2" =
      .ok (⟨true, [], [], [⟨"x2", "B1", amountSolOf iTenth, 95⟩], [5]⟩,
           [Event.fetchTx "x2", Event.transferCall "B1" 95, Event.burnCall 5,
            Event.commitBurn 5,
            Event.commitPurchase ⟨"x2", "B1", amountSolOf iTenth, 95⟩]) ∧
    (getTotals (outSt (processSignature cfgTakeCap (chAll txTenth) stPool "x2"))).2 = 95 ∧
    (95 : ℤ) ≠ cfgTakeCap.presaleCap := by
  have h0 : (getTotals stPool).2 = 0 := rfl
  have hcapA : capAdjust cfgTakeCap stPool
      (calcBuzzWhole cfgTakeCap (amountSolOf iTenth)) = some 100 := by
    rw [capAdjust_clamp cfgTakeCap stPool _ (by decide) (by rw [h0]; decide)
          (by rw [h0, calc_takecap_tenth]; decide), h0]
    decide
  have hsplit : burnSplit cfgTakeCap 100 = some (95, 5) := by
    rw [burnSplit_take cfgTakeCap 100 rfl (by decide) (by decide)]
    decide
  have hbf : burnFinal cfgTakeCap 95 5 = 5 := by decide
  have hs := processSignature_single_success cfgTakeCap (chAll txTenth) stPool "x2"
    txTenth iTenth 100 95 5 rfl rfl rfl rfl qual_takecap_tenth hcapA hsplit rfl
    (fun _ => rfl)
  rw [hbf] at hs
  have heq : processSignature cfgTakeCap (chAll txTenth) stPool "x2" =
      .ok (⟨true, [], [], [⟨"x2", "B1", amountSolOf iTenth, 95⟩], [5]⟩,
           [Event.fetchTx "x2", Event.transferCall "B1" 95, Event.burnCall 5,
            Event.commitBurn 5,
            Event.commitPurchase ⟨"x2", "B1", amountSolOf iTenth, 95⟩]) := by
    rw [hs]
    norm_num [recordBurn, recordPurchase, stPool, iTenth, mkI]
  refine ⟨by decide, calc_takecap_tenth, heq, ?_, by decide⟩
  rw [heq]
  simp [outSt, getTotals, sumBuzz]

lemma calc_cap_half : calcBuzzWhole cfgCap (amountSolOf iHalf) = 5000000 := by
  norm_num [calcBuzzWhole, cfgCap, amountSolOf, iHalf, mkI]

lemma qual_cap_half : qualInstr cfgCap iHalf := by
  refine ⟨rfl, rfl, rfl, by decide, ?_, ?_⟩
  · rw [not_or]
    constructor <;> norm_num [amountSolOf, iHalf, mkI, cfgCap]
  · rw [calc_cap_half]; norm_num

/-- C2 witness: the three parts of the amended cap claim applied to
concrete stores holding 8M of a 10M cap (monotone and exact fill) and a
store already at the cap (ineligibility). -/
theorem cap_c2_witness :
    (getTotals (poll cfgCap (chAll txHalf) stCap8M ["w2a"]).1).2 ≤ cfgCap.presaleCap ∧
    processSignature cfgCap (chAll txHalf) stFull "w2b" = .ok (stFull, [Event.fetchTx "w2b"]) ∧
    (getTotals (outSt (processSignature cfgCap (chAll txHalf) stCap8M "w2c"))).2 =
      cfgCap.presaleCap :=
  ⟨cap_c2.1 cfgCap (chAll txHalf) stCap8M ["w2a"] (by decide) rfl (by decide),
   cap_c2.2.1 cfgCap (chAll txHalf) stFull "w2b" txHalf (by decide) rfl rfl
     (by decide) (by decide),
   cap_c2.2.2 cfgCap (chAll txHalf) stCap8M "w2c" txHalf iHalf rfl (by decide)
     rfl rfl rfl qual_cap_half (by decide) (by decide)
     (by rw [calc_cap_half]; decide) (by decide) rfl (fun _ => rfl)⟩

lemma recordPurchase_append (st : St) (row : Purchase) :
    ∃ l, (recordPurchase st row).pgPurchases = st.pgPurchases ++ l := by
  unfold recordPurchase
  by_cases g1 : (!st.usePool) = true
  · rw [if_pos g1]
    exact ⟨[], by simp⟩
  · rw [if_neg g1]
    by_cases g2 : (st.pgPurchases.any fun r => r.sig == row.sig) = true
    · rw [if_pos g2]
      exact ⟨[], by simp⟩
    · rw [if_neg g2]
      exact ⟨[row], by simp⟩

lemma processSignature_single_split_none (cfg : Config) (ch : Chain) (st : St)
    (sig : String) (tx : Tx) (i : Instr) (bw : ℤ)
    (hnp : hasProcessed st sig = false) (hf : ch.fetch sig = .found tx)
    (htx : tx.err = false) (hins : tx.instructions = [i]) (hq : qualInstr cfg i)
    (hcapA : capAdjust cfg st (calcBuzzWhole cfg (amountSolOf i)) = some bw)
    (hsplit : burnSplit cfg bw = none) :
    processSignature cfg ch st sig = .ok (st, [Event.fetchTx sig]) := by
  rw [processSignature_found cfg ch st sig tx hnp hf htx, hins, procInstrs_singleton,
      instrStep_qual cfg ch sig i st _ hq,
      execPolicy_split_none cfg ch sig i st _ bw hcapA hsplit]

/-- C3 amended: for a transaction whose single qualifying deposit is
processed, the buyer transfer happens first, then any burn call with its
burn record, then the purchase record, strictly in that order; if the
transfer call fails, no ledger entry at all is written for that
transaction — the state is unchanged and the signature stays unmarked,
eligible for retry on a future poll; and processing only ever appends to
the durable purchases table (rows are never updated or deleted).  (A
transaction carrying several qualifying deposits can commit an earlier
deposit's row before a later deposit's transfer fails, marking the
signature anyway — the counterexample.) -/
theorem exec_c3 :
    (∀ (cfg : Config) (ch : Chain) (st : St) (sig : String) (tx : Tx) (i : Instr)
       (bw buyer burnW : ℤ),
      hasProcessed st sig = false → ch.fetch sig = .found tx → tx.err = false →
      tx.instructions = [i] → qualInstr cfg i →
      capAdjust cfg st (calcBuzzWhole cfg (amountSolOf i)) = some bw →
      burnSplit cfg bw = some (buyer, burnW) →
      ch.transferOk i.source buyer = true →
      (burnFinal cfg buyer burnW > 0 → ch.burnOk (burnFinal cfg buyer burnW) = true) →
      processSignature cfg ch st sig =
        .ok (recordPurchase
               (if burnFinal cfg buyer burnW > 0 then
                  recordBurn st (burnFinal cfg buyer burnW)
                else st)
               ⟨sig, i.source, amountSolOf i, buyer⟩,
             [Event.fetchTx sig, Event.transferCall i.source buyer] ++
               (if burnFinal cfg buyer burnW > 0 then
                  [Event.burnCall (burnFinal cfg buyer burnW),
                   Event.commitBurn (burnFinal cfg buyer burnW)]
                else []) ++
               [Event.commitPurchase ⟨sig, i.source, amountSolOf i, buyer⟩])) ∧
    (∀ (cfg : Config) (ch : Chain) (st : St) (sig : String) (tx : Tx) (i : Instr)
       (bw buyer burnW : ℤ),
      hasProcessed st sig = false → ch.fetch sig = .found tx → tx.err = false →
      tx.instructions = [i] → qualInstr cfg i →
      capAdjust cfg st (calcBuzzWhole cfg (amountSolOf i)) = some bw →
      burnSplit cfg bw = some (buyer, burnW) →
      ch.transferOk i.source buyer = false →
      processSignature cfg ch st sig =
        .error (st, [Event.fetchTx sig, Event.transferCall i.source buyer]) ∧
      hasProcessed (outSt (processSignature cfg ch st sig)) sig = false) ∧
    (∀ (cfg : Config) (ch : Chain) (st : St) (sig : String),
      ∃ l, (outSt (processSignature cfg ch st sig)).pgPurchases =
        st.pgPurchases ++ l) := by
  refine ⟨?_, ?_, ?_⟩
  · intro cfg ch st sig tx i bw buyer burnW hnp hf htx hins hq hcapA hsplit ht hok
    exact processSignature_single_success cfg ch st sig tx i bw buyer burnW
      hnp hf htx hins hq hcapA hsplit ht hok
  · intro cfg ch st sig tx i bw buyer burnW hnp hf htx hins hq hcapA hsplit ht
    have h := processSignature_single_transfer_fail cfg ch st sig tx i bw buyer burnW
      hnp hf htx hins hq hcapA hsplit ht
    exact ⟨h, by rw [h]; simpa [outSt] using hnp⟩
  · intro cfg ch st sig
    exact processSignature_rel cfg ch st sig
      (fun a b => ∃ l, b.pgPurchases = a.pgPurchases ++ l)
      (fun s => ⟨[], by simp⟩)
      (fun a b c hab hbc => by
        obtain ⟨l1, h1⟩ := hab
        obtain ⟨l2, h2⟩ := hbc
        exact ⟨l1 ++ l2, by rw [h2, h1, List.append_assoc]⟩)
      (fun s a => ⟨[], by simp [recordBurn_pgPurchases]⟩)
      (fun s row => recordPurchase_append s row)

/-- C3 counterexample: a transaction with two qualifying deposits under
one signature; the first deposit is paid and recorded, then the second
deposit's transfer fails.  A ledger entry for the signature exists even
though an eligible deposit's transfer failed, so that deposit is marked
processed and will never be retried. -/
theorem exec_c3_counterexample :
    processSignature cfgLinear chFirstOnly stPool "c3" =
      .error (⟨true, [], [], [⟨"c3", "B1", amountSolOf iTenth, 7000000⟩], []⟩,
              [Event.fetchTx "c3", Event.transferCall "B1" 7000000,
               Event.commitPurchase ⟨"c3", "B1", amountSolOf iTenth, 7000000⟩,
               Event.transferCall "B2" 35000000]) ∧
    hasProcessed
      (⟨true, [], [], [⟨"c3", "B1", amountSolOf iTenth, 7000000⟩], []⟩ : St) "c3" =
      true := by
  have hcapT : capAdjust cfgLinear stPool (calcBuzzWhole cfgLinear (amountSolOf iTenth)) =
      some 7000000 := by
    rw [capAdjust_off cfgLinear stPool _ (by norm_num [cfgLinear]), calc_linear_tenth]
  have hsplitT : burnSplit cfgLinear 7000000 = some (7000000, 0) :=
    burnSplit_notake cfgLinear 7000000 (by simp [cfgLinear])
  have hsplitH : burnSplit cfgLinear 35000000 = some (35000000, 0) :=
    burnSplit_notake cfgLinear 35000000 (by simp [cfgLinear])
  have h1 : instrStep cfgLinear chFirstOnly "c3" iTenth stPool [Event.fetchTx "c3"] =
      .next (recordPurchase stPool ⟨"c3", "B1", amountSolOf iTenth, 7000000⟩)
        [Event.fetchTx "c3", Event.transferCall "B1" 7000000,
         Event.commitPurchase ⟨"c3", "B1", amountSolOf iTenth, 7000000⟩] := by
    rw [instrStep_qual cfgLinear chFirstOnly "c3" iTenth stPool _ qual_linear_tenth,
        execPolicy_success_noburn cfgLinear chFirstOnly "c3" iTenth stPool _
          7000000 7000000 0 hcapT hsplitT (by decide)
          (by norm_num [burnFinal, cfgLinear])]
    simp [iTenth, mkI]
  have hrp : recordPurchase stPool ⟨"c3", "B1", amountSolOf iTenth, 7000000⟩ =
      (⟨true, [], [], [⟨"c3", "B1", amountSolOf iTenth, 7000000⟩], []⟩ : St) := by
    rw [recordPurchase_pool_new stPool _ rfl rfl]
    simp [stPool]
  have hcapH : capAdjust cfgLinear
      (⟨true, [], [], [⟨"c3", "B1", amountSolOf iTenth, 7000000⟩], []⟩ : St)
      (calcBuzzWhole cfgLinear (amountSolOf iHalf)) = some 35000000 := by
    rw [capAdjust_off cfgLinear _ _ (by norm_num [cfgLinear]), calc_linear_half]
  have h2 : instrStep cfgLinear chFirstOnly "c3" iHalf
      (⟨true, [], [], [⟨"c3", "B1", amountSolOf iTenth, 7000000⟩], []⟩ : St)
      [Event.fetchTx "c3", Event.transferCall "B1" 7000000,
       Event.commitPurchase ⟨"c3", "B1", amountSolOf iTenth, 7000000⟩] =
      .thrown (⟨true, [], [], [⟨"c3", "B1", amountSolOf iTenth, 7000000⟩], []⟩ : St)
        [Event.fetchTx "c3", Event.transferCall "B1" 7000000,
         Event.commitPurchase ⟨"c3", "B1", amountSolOf iTenth, 7000000⟩,
         Event.transferCall "B2" 35000000] := by
    rw [instrStep_qual cfgLinear chFirstOnly "c3" iHalf _ _ qual_linear_half,
        execPolicy_transfer_fail cfgLinear chFirstOnly "c3" iHalf _ _
          35000000 35000000 0 hcapH hsplitH (by decide)]
    simp [iHalf, mkI]
  constructor
  · rw [processSignature_found cfgLinear chFirstOnly stPool "c3" txTwo rfl rfl rfl,
        show txTwo.instructions = [iTenth, iHalf] from rfl]
    simp only [procInstrs, h1, hrp, h2]
  · rfl



/-- C3 witness: order of events on a successful single deposit, the
no-write guarantee on transfer failure, and append-only growth, each at
a concrete input. -/
theorem exec_c3_witness :
    processSignature cfgLinear (chAll txHalf) stPool "w3a" =
      .ok (recordPurchase
             (if burnFinal cfgLinear 35000000 0 > 0 then
                recordBurn stPool (burnFinal cfgLinear 35000000 0)
              else stPool)
             ⟨"w3a", iHalf.source, amountSolOf iHalf, 35000000⟩,
           [Event.fetchTx "w3a", Event.transferCall iHalf.source 35000000] ++
             (if burnFinal cfgLinear 35000000 0 > 0 then
                [Event.burnCall (burnFinal cfgLinear 35000000 0),
                 Event.commitBurn (burnFinal cfgLinear 35000000 0)]
              else []) ++
             [Event.commitPurchase ⟨"w3a", iHalf.source, amountSolOf iHalf, 35000000⟩]) ∧
    (processSignature cfgLinear chTwoFail1 stPool "s1" =
      .error (stPool, [Event.fetchTx "s1", Event.transferCall iTenth.source 7000000]) ∧
     hasProcessed (outSt (processSignature cfgLinear chTwoFail1 stPool "s1")) "s1" =
      false) ∧
    (∃ l, (outSt (processSignature cfgLinear (chAll txHalf) stPool "w3c")).pgPurchases =
      stPool.pgPurchases ++ l) := by
  have hcapT : capAdjust cfgLinear stPool (calcBuzzWhole cfgLinear (amountSolOf iTenth)) =
      some 7000000 := by
    rw [capAdjust_off cfgLinear stPool _ (by norm_num [cfgLinear]), calc_linear_tenth]
  have hcapH : capAdjust cfgLinear stPool (calcBuzzWhole cfgLinear (amountSolOf iHalf)) =
      some 35000000 := by
    rw [capAdjust_off cfgLinear stPool _ (by norm_num [cfgLinear]), calc_linear_half]
  have hsplitT : burnSplit cfgLinear 7000000 = some (7000000, 0) :=
    burnSplit_notake cfgLinear 7000000 (by simp [cfgLinear])
  have hsplitH : burnSplit cfgLinear 35000000 = some (35000000, 0) :=
    burnSplit_notake cfgLinear 35000000 (by simp [cfgLinear])
  refine ⟨?_, ?_, ?_⟩
  · exact exec_c3.1 cfgLinear (chAll txHalf) stPool "w3a" txHalf iHalf
      35000000 35000000 0 rfl rfl rfl rfl qual_linear_half hcapH hsplitH rfl
      (fun _ => rfl)
  · exact exec_c3.2.1 cfgLinear chTwoFail1 stPool "s1" ⟨false, [iTenth]⟩ iTenth
      7000000 7000000 0 rfl (by simp [chTwoFail1]) rfl rfl qual_linear_tenth
      hcapT hsplitT (by decide)
  · exact exec_c3.2.2 cfgLinear (chAll txHalf) stPool "w3c"

lemma calc_takebig_tenth : calcBuzzWhole cfgTakeBig (amountSolOf iTenth) = 1000000 := by
  norm_num [calcBuzzWhole, cfgTakeBig, amountSolOf, iTenth, mkI]

lemma qual_takebig_tenth : qualInstr cfgTakeBig iTenth := by
  refine ⟨rfl, rfl, rfl, by decide, ?_, ?_⟩
  · rw [not_or]
    constructor <;> norm_num [amountSolOf, iTenth, mkI, cfgTakeBig]
  · rw [calc_takebig_tenth]; norm_num

lemma calc_extrabig_tenth : calcBuzzWhole cfgExtraBig (amountSolOf iTenth) = 1000000 := by
  norm_num [calcBuzzWhole, cfgExtraBig, amountSolOf, iTenth, mkI]

lemma qual_extrabig_tenth : qualInstr cfgExtraBig iTenth := by
  refine ⟨rfl, rfl, rfl, by decide, ?_, ?_⟩
  · rw [not_or]
    constructor <;> norm_num [amountSolOf, iTenth, mkI, cfgExtraBig]
  · rw [calc_extrabig_tenth]; norm_num

/-- C4: burn conservation.  In take mode with a positive rate, the burn
is floor(cappedRaw * rateBps / 10000), the buyer receives the remainder
(so buyer plus burn equals the capped raw amount exactly), and the
deposit is not eligible when the remainder is not positive.  In extra
mode the buyer receives the full capped amount, the burn is
floor(buyerAmount * rateBps / 10000) on top, and only the buyer amount
enters the purchases table (the burn does not count toward the cap
accounting). -/
theorem burn_c4 :
    (∀ (cfg : Config) (ch : Chain) (st : St) (sig : String) (tx : Tx) (i : Instr)
       (bw : ℤ),
      hasProcessed st sig = false → ch.fetch sig = .found tx → tx.err = false →
      tx.instructions = [i] → qualInstr cfg i →
      cfg.burnMode = "take" → 0 < cfg.burnRateBps →
      capAdjust cfg st (calcBuzzWhole cfg (amountSolOf i)) = some bw →
      ((bw - bw * cfg.burnRateBps / 10000 ≤ 0 →
        processSignature cfg ch st sig = .ok (st, [Event.fetchTx sig])) ∧
       (0 < bw - bw * cfg.burnRateBps / 10000 →
        ch.transferOk i.source (bw - bw * cfg.burnRateBps / 10000) = true →
        (0 < bw * cfg.burnRateBps / 10000 →
          ch.burnOk (bw * cfg.burnRateBps / 10000) = true) →
        (bw - bw * cfg.burnRateBps / 10000) + bw * cfg.burnRateBps / 10000 = bw ∧
        processSignature cfg ch st sig =
          .ok (recordPurchase
                 (if bw * cfg.burnRateBps / 10000 > 0 then
                    recordBurn st (bw * cfg.burnRateBps / 10000)
                  else st)
                 ⟨sig, i.source, amountSolOf i, bw - bw * cfg.burnRateBps / 10000⟩,
               [Event.fetchTx sig,
                Event.transferCall i.source (bw - bw * cfg.burnRateBps / 10000)] ++
                 (if bw * cfg.burnRateBps / 10000 > 0 then
                    [Event.burnCall (bw * cfg.burnRateBps / 10000),
                     Event.commitBurn (bw * cfg.burnRateBps / 10000)]
                  else []) ++
                 [Event.commitPurchase
                    ⟨sig, i.source, amountSolOf i,
                     bw - bw * cfg.burnRateBps / 10000⟩])))) ∧
    (∀ (cfg : Config) (ch : Chain) (st : St) (sig : String) (tx : Tx) (i : Instr)
       (bw : ℤ),
      st.usePool = true →
      hasProcessed st sig = false → ch.fetch sig = .found tx → tx.err = false →
      tx.instructions = [i] → qualInstr cfg i →
      cfg.burnMode = "extra" → 0 < cfg.burnRateBps →
      capAdjust cfg st (calcBuzzWhole cfg (amountSolOf i)) = some bw →
      ch.transferOk i.source bw = true →
      (0 < bw * cfg.burnRateBps / 10000 →
        ch.burnOk (bw * cfg.burnRateBps / 10000) = true) →
      processSignature cfg ch st sig =
        .ok (recordPurchase
               (if bw * cfg.burnRateBps / 10000 > 0 then
                  recordBurn st (bw * cfg.burnRateBps / 10000)
                else st)
               ⟨sig, i.source, amountSolOf i, bw⟩,
             [Event.fetchTx sig, Event.transferCall i.source bw] ++
               (if bw * cfg.burnRateBps / 10000 > 0 then
                  [Event.burnCall (bw * cfg.burnRateBps / 10000),
                   Event.commitBurn (bw * cfg.burnRateBps / 10000)]
                else []) ++
               [Event.commitPurchase ⟨sig, i.source, amountSolOf i, bw⟩]) ∧
      sumBuzz (outSt (processSignature cfg ch st sig)).pgPurchases =
        sumBuzz st.pgPurchases + bw) := by
  constructor
  · intro cfg ch st sig tx i bw hnp hf htx hins hq htake hbps hcapA
    have hnoextra : ¬ (cfg.burnMode = "extra" ∧ 0 < cfg.burnRateBps) := by
      simp [htake]
    constructor
    · intro hneg
      exact processSignature_single_split_none cfg ch st sig tx i bw hnp hf htx hins hq
        hcapA (burnSplit_take_none cfg bw htake hbps hneg)
    · intro hpos ht hok
      refine ⟨by omega, ?_⟩
      have hsplit := burnSplit_take cfg bw htake hbps hpos
      have hbfeq : burnFinal cfg (bw - bw * cfg.burnRateBps / 10000)
          (bw * cfg.burnRateBps / 10000) = bw * cfg.burnRateBps / 10000 :=
        burnFinal_noextra cfg _ _ hnoextra
      have hs := processSignature_single_success cfg ch st sig tx i bw
        (bw - bw * cfg.burnRateBps / 10000) (bw * cfg.burnRateBps / 10000)
        hnp hf htx hins hq hcapA hsplit ht (by rw [hbfeq]; exact hok)
      rw [hbfeq] at hs
      exact hs
  · intro cfg ch st sig tx i bw hp hnp hf htx hins hq hextra hbps hcapA ht hok
    have hnotake : ¬ (cfg.burnMode = "take" ∧ cfg.burnRateBps > 0) := by
      simp [hextra]
    have hsplit := burnSplit_notake cfg bw hnotake
    have hbfeq : burnFinal cfg bw 0 = bw * cfg.burnRateBps / 10000 :=
      burnFinal_extra cfg bw 0 hextra hbps
    have hs := processSignature_single_success cfg ch st sig tx i bw bw 0
      hnp hf htx hins hq hcapA hsplit ht (by rw [hbfeq]; exact hok)
    rw [hbfeq] at hs
    refine ⟨hs, ?_⟩
    rw [hs]
    simp only [outSt]
    set bf := bw * cfg.burnRateBps / 10000 with hbf
    set stMid := if bf > 0 then recordBurn st bf else st with hmid
    have hpm : stMid.usePool = true := by
      rw [hmid]; split <;> [rw [recordBurn_usePool]; skip] <;> exact hp
    have hgm : stMid.pgPurchases = st.pgPurchases := by
      rw [hmid]; split <;> [rw [recordBurn_pgPurchases]; rfl]
    have hany : stMid.pgPurchases.any
        (fun r => r.sig == (⟨sig, i.source, amountSolOf i, bw⟩ : Purchase).sig) =
        false := by
      rw [hgm]
      exact hasProcessed_false_any st sig hp hnp
    rw [recordPurchase_pool_new stMid _ hpm hany]
    simp only [sumBuzz_append, hgm]

/-- C4 witness: 1,000,000 raw tokens at 500 bps — take mode pays
950,000 and burns 50,000 (conserving the raw amount); extra mode pays
the full 1,000,000 and only that amount enters the purchases total. -/
theorem burn_c4_witness :
    processSignature cfgTakeBig (chAll txTenth) stPool "w4a" =
      .ok (⟨true, [], [], [⟨"w4a", "B1", amountSolOf iTenth, 950000⟩], [50000]⟩,
           [Event.fetchTx "w4a", Event.transferCall "B1" 950000,
            Event.burnCall 50000, Event.commitBurn 50000,
            Event.commitPurchase ⟨"w4a", "B1", amountSolOf iTenth, 950000⟩]) ∧
    sumBuzz (outSt (processSignature cfgExtraBig (chAll txTenth) stPool "w4b")).pgPurchases =
      sumBuzz stPool.pgPurchases + 1000000 := by
  have hcapA : capAdjust cfgTakeBig stPool
      (calcBuzzWhole cfgTakeBig (amountSolOf iTenth)) = some 1000000 := by
    rw [capAdjust_off cfgTakeBig stPool _ (by decide), calc_takebig_tenth]
  have hcapB : capAdjust cfgExtraBig stPool
      (calcBuzzWhole cfgExtraBig (amountSolOf iTenth)) = some 1000000 := by
    rw [capAdjust_off cfgExtraBig stPool _ (by decide), calc_extrabig_tenth]
  constructor
  · have h := ((burn_c4.1 cfgTakeBig (chAll txTenth) stPool "w4a" txTenth iTenth
      1000000 rfl rfl rfl rfl qual_takebig_tenth rfl (by decide) hcapA).2
      (by decide) rfl (fun _ => rfl)).2
    rw [h]
    norm_num [cfgTakeBig, recordBurn, recordPurchase, stPool, iTenth, mkI]
  · have h := (burn_c4.2 cfgExtraBig (chAll txTenth) stPool "w4b" txTenth iTenth
      1000000 rfl rfl rfl rfl rfl qual_extrabig_tenth rfl (by decide) hcapB rfl
      (fun _ => rfl)).2
    exact h

/-- C8: chronological processing.  Given a newest-first signature list
[sNew, sOld] of two fresh one-deposit transactions under a positive cap
with burn off, the poller processes the older deposit first (the list is
reversed), the older deposit is paid in full, and the newer deposit —
the one that would overflow the cap — is pro-rated down to the remaining
headroom, landing the cumulative total exactly on the cap. -/
theorem ordering_c8 (cfg : Config) (ch : Chain) (st : St) (sOld sNew : String)
    (i1 i2 : Instr)
    (hp : st.usePool = true) (hne : sOld ≠ sNew)
    (hnp1 : hasProcessed st sOld = false) (hnp2 : hasProcessed st sNew = false)
    (hf1 : ch.fetch sOld = .found ⟨false, [i1]⟩)
    (hf2 : ch.fetch sNew = .found ⟨false, [i2]⟩)
    (hq1 : qualInstr cfg i1) (hq2 : qualInstr cfg i2)
    (hmode : cfg.burnMode = "off") (hcap : 0 < cfg.presaleCap)
    (hfit : (getTotals st).2 + calcBuzzWhole cfg (amountSolOf i1) < cfg.presaleCap)
    (hover : cfg.presaleCap < (getTotals st).2 + calcBuzzWhole cfg (amountSolOf i1) +
      calcBuzzWhole cfg (amountSolOf i2))
    (ht1 : ch.transferOk i1.source (calcBuzzWhole cfg (amountSolOf i1)) = true)
    (ht2 : ch.transferOk i2.source (cfg.presaleCap - (getTotals st).2 -
      calcBuzzWhole cfg (amountSolOf i1)) = true) :
    poll cfg ch st [sNew, sOld] =
      (recordPurchase
         (recordPurchase st
           ⟨sOld, i1.source, amountSolOf i1, calcBuzzWhole cfg (amountSolOf i1)⟩)
         ⟨sNew, i2.source, amountSolOf i2,
          cfg.presaleCap - (getTotals st).2 - calcBuzzWhole cfg (amountSolOf i1)⟩,
       [Event.fetchTx sOld,
        Event.transferCall i1.source (calcBuzzWhole cfg (amountSolOf i1)),
        Event.commitPurchase
          ⟨sOld, i1.source, amountSolOf i1, calcBuzzWhole cfg (amountSolOf i1)⟩,
        Event.fetchTx sNew,
        Event.transferCall i2.source (cfg.presaleCap - (getTotals st).2 -
          calcBuzzWhole cfg (amountSolOf i1)),
        Event.commitPurchase
          ⟨sNew, i2.source, amountSolOf i2,
           cfg.presaleCap - (getTotals st).2 - calcBuzzWhole cfg (amountSolOf i1)⟩],
       false) ∧
    (getTotals (poll cfg ch st [sNew, sOld]).1).2 = cfg.presaleCap := by
  have notake : ¬ (cfg.burnMode = "take" ∧ cfg.burnRateBps > 0) := by simp [hmode]
  have noextra : ¬ (cfg.burnMode = "extra" ∧ 0 < cfg.burnRateBps) := by simp [hmode]
  set T := (getTotals st).2 with hTdef
  set r1 := calcBuzzWhole cfg (amountSolOf i1) with hr1def
  set r2 := calcBuzzWhole cfg (amountSolOf i2) with hr2def
  have hr1pos : 0 < r1 := hq1.2.2.2.2.2
  have hr2pos : 0 < r2 := hq2.2.2.2.2.2
  have hT : T < cfg.presaleCap := by omega
  have hbf1 : burnFinal cfg r1 0 = 0 := burnFinal_noextra cfg r1 0 noextra
  have hcapA1 : capAdjust cfg st r1 = some r1 :=
    capAdjust_noclamp cfg st r1 hcap hT (by omega)
  have hs1 := processSignature_single_success cfg ch st sOld ⟨false, [i1]⟩ i1 r1 r1 0
    hnp1 hf1 rfl rfl hq1 hcapA1 (burnSplit_notake cfg r1 notake) ht1
    (by rw [hbf1]; exact fun h => absurd h (by omega))
  rw [hbf1, if_neg (by norm_num : ¬ (0:ℤ) > 0), if_neg (by norm_num : ¬ (0:ℤ) > 0)] at hs1
  simp only [List.append_nil] at hs1
  have hany1 : st.pgPurchases.any
      (fun r => r.sig == (⟨sOld, i1.source, amountSolOf i1, r1⟩ : Purchase).sig) =
      false := hasProcessed_false_any st sOld hp hnp1
  have hrp1 : recordPurchase st ⟨sOld, i1.source, amountSolOf i1, r1⟩ =
      { st with pgPurchases :=
          st.pgPurchases ++ [⟨sOld, i1.source, amountSolOf i1, r1⟩] } :=
    recordPurchase_pool_new st _ hp hany1
  rw [hrp1] at hs1
  have hp1 : ({ st with pgPurchases :=
      st.pgPurchases ++ [⟨sOld, i1.source, amountSolOf i1, r1⟩] } : St).usePool =
      true := hp
  have hT1 : (getTotals { st with pgPurchases :=
      st.pgPurchases ++ [⟨sOld, i1.source, amountSolOf i1, r1⟩] }).2 = T + r1 := by
    rw [getTotals_pool _ hp1]
    simp only [sumBuzz_append]
    rw [hTdef, getTotals_pool st hp]
  have hnp2' : hasProcessed { st with pgPurchases :=
      st.pgPurchases ++ [⟨sOld, i1.source, amountSolOf i1, r1⟩] } sNew = false := by
    rw [hasProcessed_pool _ _ hp1]
    simp only [List.any_append]
    rw [hasProcessed_false_any st sNew hp hnp2]
    simp [hne]
  have hcapA2 : capAdjust cfg { st with pgPurchases :=
      st.pgPurchases ++ [⟨sOld, i1.source, amountSolOf i1, r1⟩] } r2 =
      some (cfg.presaleCap - T - r1) := by
    rw [capAdjust_clamp cfg _ r2 hcap (by omega) (by omega), hT1]
    congr 1
    omega
  have hbf2 : burnFinal cfg (cfg.presaleCap - T - r1) 0 = 0 :=
    burnFinal_noextra cfg _ 0 noextra
  have hs2 := processSignature_single_success cfg ch
    { st with pgPurchases := st.pgPurchases ++ [⟨sOld, i1.source, amountSolOf i1, r1⟩] }
    sNew ⟨false, [i2]⟩ i2 (cfg.presaleCap - T - r1) (cfg.presaleCap - T - r1) 0
    hnp2' hf2 rfl rfl hq2 hcapA2
    (burnSplit_notake cfg _ notake) ht2
    (by rw [hbf2]; exact fun h => absurd h (by omega))
  rw [hbf2, if_neg (by norm_num : ¬ (0:ℤ) > 0), if_neg (by norm_num : ¬ (0:ℤ) > 0)] at hs2
  simp only [List.append_nil] at hs2
  have hany2 : (st.pgPurchases ++ [(⟨sOld, i1.source, amountSolOf i1, r1⟩ : Purchase)]).any
      (fun r => r.sig ==
        (⟨sNew, i2.source, amountSolOf i2, cfg.presaleCap - T - r1⟩ : Purchase).sig) =
      false := by
    simp only [List.any_append]
    rw [hasProcessed_false_any st sNew hp hnp2]
    simp [hne]
  have hrp2 : recordPurchase
      { st with pgPurchases := st.pgPurchases ++ [⟨sOld, i1.source, amountSolOf i1, r1⟩] }
      ⟨sNew, i2.source, amountSolOf i2, cfg.presaleCap - T - r1⟩ =
      { st with pgPurchases :=
          (st.pgPurchases ++ [(⟨sOld, i1.source, amountSolOf i1, r1⟩ : Purchase)]) ++
          [(⟨sNew, i2.source, amountSolOf i2, cfg.presaleCap - T - r1⟩ : Purchase)] } :=
    recordPurchase_pool_new _ _ hp1 hany2
  have hpoll : poll cfg ch st [sNew, sOld] =
      ({ st with pgPurchases :=
          (st.pgPurchases ++ [(⟨sOld, i1.source, amountSolOf i1, r1⟩ : Purchase)]) ++
          [(⟨sNew, i2.source, amountSolOf i2, cfg.presaleCap - T - r1⟩ : Purchase)] },
       [Event.fetchTx sOld, Event.transferCall i1.source r1,
        Event.commitPurchase ⟨sOld, i1.source, amountSolOf i1, r1⟩,
        Event.fetchTx sNew, Event.transferCall i2.source (cfg.presaleCap - T - r1),
        Event.commitPurchase ⟨sNew, i2.source, amountSolOf i2, cfg.presaleCap - T - r1⟩],
       false) := by
    unfold poll
    rw [show ([sNew, sOld] : List String).reverse = [sOld, sNew] from by simp]
    simp only [processAll, hs1, hs2, hrp2]
    simp
  constructor
  · rw [hpoll, hrp1, hrp2]
  · rw [hpoll]
    have hTs : T = sumBuzz st.pgPurchases := by rw [hTdef, getTotals_pool st hp]
    simp only [getTotals, hp, Bool.not_true, sumBuzz_append]
    simp only [Bool.false_eq_true, if_false, sumBuzz_append]
    omega



lemma calc_cap_tenth : calcBuzzWhole cfgCap (amountSolOf iTenth) = 1000000 := by
  norm_num [calcBuzzWhole, cfgCap, amountSolOf, iTenth, mkI]

lemma qual_cap_tenth : qualInstr cfgCap iTenth := by
  refine ⟨rfl, rfl, rfl, by decide, ?_, ?_⟩
  · rw [not_or]
    constructor <;> norm_num [amountSolOf, iTenth, mkI, cfgCap]
  · rw [calc_cap_tenth]; norm_num

/-- C8 witness: the ordering theorem applied to a store holding 8M of a
10M cap, an older 0.1 SOL deposit (1M tokens, fits) and a newer 0.5 SOL
deposit (5M tokens, clamped to 2M), listed newest-first. -/
theorem ordering_c8_witness :
    poll cfgCap chTwoOk stCap8M ["sN", "sOld"] =
      (recordPurchase
         (recordPurchase stCap8M
           ⟨"sOld", iTenth.source, amountSolOf iTenth,
            calcBuzzWhole cfgCap (amountSolOf iTenth)⟩)
         ⟨"sN", iHalf.source, amountSolOf iHalf,
          cfgCap.presaleCap - (getTotals stCap8M).2 -
            calcBuzzWhole cfgCap (amountSolOf iTenth)⟩,
       [Event.fetchTx "sOld",
        Event.transferCall iTenth.source (calcBuzzWhole cfgCap (amountSolOf iTenth)),
        Event.commitPurchase
          ⟨"sOld", iTenth.source, amountSolOf iTenth,
           calcBuzzWhole cfgCap (amountSolOf iTenth)⟩,
        Event.fetchTx "sN",
        Event.transferCall iHalf.source (cfgCap.presaleCap - (getTotals stCap8M).2 -
          calcBuzzWhole cfgCap (amountSolOf iTenth)),
        Event.commitPurchase
          ⟨"sN", iHalf.source, amountSolOf iHalf,
           cfgCap.presaleCap - (getTotals stCap8M).2 -
             calcBuzzWhole cfgCap (amountSolOf iTenth)⟩],
       false) ∧
    (getTotals (poll cfgCap chTwoOk stCap8M ["sN", "sOld"]).1).2 = cfgCap.presaleCap :=
  ordering_c8 cfgCap chTwoOk stCap8M "sOld" "sN" iTenth iHalf rfl (by decide)
    (by decide) (by decide) (by simp [chTwoOk]) (by simp [chTwoOk])
    qual_cap_tenth qual_cap_half rfl (by decide)
    (by rw [calc_cap_tenth]; decide)
    (by rw [calc_cap_tenth, calc_cap_half]; decide) rfl rfl



lemma procInstrs_marked (cfg : Config) (ch : Chain) (sig : String)
    (hcap : ¬ cfg.presaleCap > 0) (hmode : cfg.burnMode = "off") :
    ∀ (l : List Instr) (st : St) (tr : List Event),
      st.usePool = true → hasProcessed st sig = true →
      (∀ i ∈ l, qualInstr cfg i) →
      (∀ i ∈ l, ch.transferOk i.source (calcBuzzWhole cfg (amountSolOf i)) = true) →
      procInstrs cfg ch sig l st tr =
        .ok (st, tr ++ l.flatMap (fun i =>
          [Event.transferCall i.source (calcBuzzWhole cfg (amountSolOf i)),
           Event.commitPurchase ⟨sig, i.source, amountSolOf i,
             calcBuzzWhole cfg (amountSolOf i)⟩])) := by
  intro l
  induction l with
  | nil => intro st tr _ _ _ _; simp [procInstrs]
  | cons i rest ih =>
    intro st tr hp hmark hq ht
    have notake : ¬ (cfg.burnMode = "take" ∧ cfg.burnRateBps > 0) := by simp [hmode]
    have noextra : ¬ (cfg.burnMode = "extra" ∧ 0 < cfg.burnRateBps) := by simp [hmode]
    have hbf : burnFinal cfg (calcBuzzWhole cfg (amountSolOf i)) 0 = 0 :=
      burnFinal_noextra cfg _ 0 noextra
    have hstep := execPolicy_success_noburn cfg ch sig i st tr
      (calcBuzzWhole cfg (amountSolOf i)) (calcBuzzWhole cfg (amountSolOf i)) 0
      (capAdjust_off cfg st _ hcap)
      (burnSplit_notake cfg _ notake)
      (ht i (by simp)) (by rw [hbf]; omega)
    have hdup : recordPurchase st
        ⟨sig, i.source, amountSolOf i, calcBuzzWhole cfg (amountSolOf i)⟩ = st :=
      recordPurchase_pool_dup st _ hp (by rwa [hasProcessed_pool st sig hp] at hmark)
    simp only [procInstrs, instrStep_qual cfg ch sig i st tr (hq i (by simp)), hstep,
      hdup]
    rw [ih st _ hp hmark (fun j hj => hq j (by simp [hj]))
          (fun j hj => ht j (by simp [hj]))]
    simp [List.flatMap_cons, List.append_assoc]



lemma countP_pair_flat (f g : Instr → Event)
    (hf : ∀ i, isTransferCall (f i) = true)
    (hg : ∀ i, isTransferCall (g i) = false) :
    ∀ l : List Instr,
      (l.flatMap (fun i => [f i, g i])).countP isTransferCall = l.length := by
  intro l
  induction l with
  | nil => simp
  | cons i rest ih =>
    simp only [List.flatMap_cons, List.countP_append, List.length_cons, ih]
    simp [List.countP_cons, hf i, hg i]
    omega

/-- C10: one payout per qualifying instruction, not per signature.  For
an unseen transaction whose instruction list holds two or more
qualifying system transfers into the treasury (cap off, burn off, all
transfers accepted), a single processing pass issues one token-transfer
call per instruction under the same signature, while the durable store
gains exactly one purchase row — the first instruction's — later commits
being dropped on the signature conflict; the number of transfer calls in
the trace equals the number of instructions, exceeding the single
recorded purchase row. -/
theorem multi_c10 (cfg : Config) (ch : Chain) (st : St) (sig : String) (tx : Tx)
    (i0 : Instr) (rest : List Instr)
    (hp : st.usePool = true) (hnp : hasProcessed st sig = false)
    (hf : ch.fetch sig = .found tx) (htx : tx.err = false)
    (hins : tx.instructions = i0 :: rest) (hlen : rest ≠ [])
    (hcap : ¬ cfg.presaleCap > 0) (hmode : cfg.burnMode = "off")
    (hq : ∀ i ∈ i0 :: rest, qualInstr cfg i)
    (ht : ∀ i ∈ i0 :: rest,
      ch.transferOk i.source (calcBuzzWhole cfg (amountSolOf i)) = true) :
    processSignature cfg ch st sig =
      .ok ({ st with pgPurchases := st.pgPurchases ++
              [⟨sig, i0.source, amountSolOf i0, calcBuzzWhole cfg (amountSolOf i0)⟩] },
           Event.fetchTx sig ::
             (i0 :: rest).flatMap (fun i =>
               [Event.transferCall i.source (calcBuzzWhole cfg (amountSolOf i)),
                Event.commitPurchase ⟨sig, i.source, amountSolOf i,
                  calcBuzzWhole cfg (amountSolOf i)⟩])) ∧
    (outTr (processSignature cfg ch st sig)).countP isTransferCall =
      (i0 :: rest).length ∧
    2 ≤ (i0 :: rest).length := by
  have notake : ¬ (cfg.burnMode = "take" ∧ cfg.burnRateBps > 0) := by simp [hmode]
  have noextra : ¬ (cfg.burnMode = "extra" ∧ 0 < cfg.burnRateBps) := by simp [hmode]
  have hbf : burnFinal cfg (calcBuzzWhole cfg (amountSolOf i0)) 0 = 0 :=
    burnFinal_noextra cfg _ 0 noextra
  have hstep := execPolicy_success_noburn cfg ch sig i0 st [Event.fetchTx sig]
    (calcBuzzWhole cfg (amountSolOf i0)) (calcBuzzWhole cfg (amountSolOf i0)) 0
    (capAdjust_off cfg st _ hcap)
    (burnSplit_notake cfg _ notake)
    (ht i0 (by simp)) (by rw [hbf]; omega)
  have hany0 : st.pgPurchases.any
      (fun r => r.sig == (⟨sig, i0.source, amountSolOf i0,
        calcBuzzWhole cfg (amountSolOf i0)⟩ : Purchase).sig) = false :=
    hasProcessed_false_any st sig hp hnp
  have hrp : recordPurchase st
      ⟨sig, i0.source, amountSolOf i0, calcBuzzWhole cfg (amountSolOf i0)⟩ =
      { st with pgPurchases := st.pgPurchases ++
          [⟨sig, i0.source, amountSolOf i0, calcBuzzWhole cfg (amountSolOf i0)⟩] } :=
    recordPurchase_pool_new st _ hp hany0
  have hmark : hasProcessed { st with pgPurchases := st.pgPurchases ++
      [⟨sig, i0.source, amountSolOf i0, calcBuzzWhole cfg (amountSolOf i0)⟩] } sig =
      true := by
    simp [hasProcessed, hp, List.any_append]
  have heq : processSignature cfg ch st sig =
      .ok ({ st with pgPurchases := st.pgPurchases ++
              [⟨sig, i0.source, amountSolOf i0, calcBuzzWhole cfg (amountSolOf i0)⟩] },
           Event.fetchTx sig ::
             (i0 :: rest).flatMap (fun i =>
               [Event.transferCall i.source (calcBuzzWhole cfg (amountSolOf i)),
                Event.commitPurchase ⟨sig, i.source, amountSolOf i,
                  calcBuzzWhole cfg (amountSolOf i)⟩])) := by
    rw [processSignature_found cfg ch st sig tx hnp hf htx, hins]
    simp only [procInstrs,
      instrStep_qual cfg ch sig i0 st [Event.fetchTx sig] (hq i0 (by simp)), hstep,
      hrp]
    rw [procInstrs_marked cfg ch sig hcap hmode rest
          { st with pgPurchases := st.pgPurchases ++
              [⟨sig, i0.source, amountSolOf i0, calcBuzzWhole cfg (amountSolOf i0)⟩] }
          _ hp hmark
          (fun j hj => hq j (by simp [hj])) (fun j hj => ht j (by simp [hj]))]
    simp [List.flatMap_cons, List.append_assoc]
  refine ⟨heq, ?_, by
    simp only [List.length_cons]
    have := List.length_pos.mpr hlen
    omega⟩
  rw [heq]
  simp only [outTr]
  rw [show (Event.fetchTx sig ::
      (i0 :: rest).flatMap (fun i =>
        [Event.transferCall i.source (calcBuzzWhole cfg (amountSolOf i)),
         Event.commitPurchase ⟨sig, i.source, amountSolOf i,
           calcBuzzWhole cfg (amountSolOf i)⟩])).countP isTransferCall =
    ((i0 :: rest).flatMap (fun i =>
        [Event.transferCall i.source (calcBuzzWhole cfg (amountSolOf i)),
         Event.commitPurchase ⟨sig, i.source, amountSolOf i,
           calcBuzzWhole cfg (amountSolOf i)⟩])).countP isTransferCall from by
      simp [List.countP_cons, isTransferCall]]
  exact countP_pair_flat
    (fun i => Event.transferCall i.source (calcBuzzWhole cfg (amountSolOf i)))
    (fun i => Event.commitPurchase ⟨sig, i.source, amountSolOf i,
      calcBuzzWhole cfg (amountSolOf i)⟩)
    (fun i => rfl) (fun i => rfl) (i0 :: rest)



/-- C10 witness: the two-deposit transaction processed once — two
transfer calls, one recorded row. -/
theorem multi_c10_witness :
    processSignature cfgLinear (chAll txTwo) stPool "w10" =
      .ok ({ stPool with pgPurchases := stPool.pgPurchases ++
              [⟨"w10", iTenth.source, amountSolOf iTenth,
                calcBuzzWhole cfgLinear (amountSolOf iTenth)⟩] },
           Event.fetchTx "w10" ::
             (iTenth :: [iHalf]).flatMap (fun i =>
               [Event.transferCall i.source (calcBuzzWhole cfgLinear (amountSolOf i)),
                Event.commitPurchase ⟨"w10", i.source, amountSolOf i,
                  calcBuzzWhole cfgLinear (amountSolOf i)⟩])) ∧
    (outTr (processSignature cfgLinear (chAll txTwo) stPool "w10")).countP
        isTransferCall = (iTenth :: [iHalf]).length ∧
    2 ≤ (iTenth :: [iHalf]).length :=
  multi_c10 cfgLinear (chAll txTwo) stPool "w10" txTwo iTenth [iHalf] rfl rfl rfl rfl
    rfl (by simp) (by decide) rfl
    (by
      intro i hi
      simp only [List.mem_cons, List.mem_singleton, List.not_mem_nil, or_false] at hi
      rcases hi with rfl | rfl
      · exact qual_linear_tenth
      · exact qual_linear_half)
    (fun i _ => rfl)

end PresaleBot
